import Mathlib

/-!
Shallow embedding of the schema-driven structural validator for Terraform
configuration blocks found in the gophx repository (the test-side validator:
BlockData tree building, dynamic-block merging, lifecycle exclusion lists and
the recursive Validate pass), together with proofs of the specification
claims about it.

Modelling conventions:
* Go maps are modelled as association lists with map-update semantics
  (`insertAssoc` replaces an existing binding); the sets recorded in
  `properties` are modelled as duplicate-free lists with membership tests.
* Nilable Go pointers (`*SchemaBlock`) become `Option`.
* The mutating methods on `BlockData` become state-passing functions.
* `cty.Value` is modelled by the inductive `CtyValue`; in go-cty the
  collection types are exactly list, set and map (tuple and object are
  structural types, string/number/bool are primitives), which fixes the
  semantics of `IsCollectionType` and `ElementIterator` used by
  `extractIgnoreChanges`.  The model covers known non-null values.
* The `*testing.T` logging parameter and the shared findings collector are
  dropped: the validator here returns the list of findings it appends.
-/

namespace Gophx

/-- Flags of one schema attribute (Go struct `SchemaAttribute`). -/
structure SchemaAttribute where
  required : Bool
  optional : Bool
  computed : Bool
deriving DecidableEq

mutual

/-- Schema node (Go struct `SchemaBlock`): attribute map and nested
block-type map, modelled as association lists with unique keys. -/
inductive SchemaBlock : Type where
  | mk : List (String × SchemaAttribute) → List (String × SchemaBlockType) → SchemaBlock

/-- Nested block type (Go struct `SchemaBlockType`): nesting mode, min/max
items and the nested schema (a nilable pointer, hence `Option`). -/
inductive SchemaBlockType : Type where
  | mk : String → Int → Int → Option SchemaBlock → SchemaBlockType

end

/-- Accessor for the attribute map of a schema node. -/
def SchemaBlock.attributes : SchemaBlock → List (String × SchemaAttribute)
  | .mk a _ => a

/-- Accessor for the block-type map of a schema node. -/
def SchemaBlock.blockTypes : SchemaBlock → List (String × SchemaBlockType)
  | .mk _ b => b

/-- Accessor for the nesting mode of a schema block type. -/
def SchemaBlockType.nesting : SchemaBlockType → String
  | .mk n _ _ _ => n

/-- Accessor for the `MinItems` field of a schema block type. -/
def SchemaBlockType.minItems : SchemaBlockType → Int
  | .mk _ mi _ _ => mi

/-- Accessor for the `MaxItems` field of a schema block type. -/
def SchemaBlockType.maxItems : SchemaBlockType → Int
  | .mk _ _ ma _ => ma

/-- Accessor for the nested schema of a schema block type. -/
def SchemaBlockType.block : SchemaBlockType → Option SchemaBlock
  | .mk _ _ _ b => b

/-- One reported gap (Go struct `ValidationFinding`). -/
structure ValidationFinding where
  ResourceType : String
  Path : String
  Name : String
  Required : Bool
  IsBlock : Bool
deriving DecidableEq

/-- Model of a go-cty value (`cty.Value`) as far as the validator inspects
one: only the shape matters.  `listV`, `setV` and `mapV` are the collection
types of go-cty; `tupleV` and `objV` are structural types and `str`, `num`,
`boolV`, `nullV` are not collections either. -/
inductive CtyValue : Type where
  | str : String → CtyValue
  | num : Int → CtyValue
  | boolV : Bool → CtyValue
  | listV : List CtyValue → CtyValue
  | setV : List CtyValue → CtyValue
  | mapV : List (String × CtyValue) → CtyValue
  | tupleV : List CtyValue → CtyValue
  | objV : List (String × CtyValue) → CtyValue
  | nullV : CtyValue

/-- Model of `val.Type().IsCollectionType()`: true exactly for list, set and
map values (go-cty's collection types). -/
def ctyIsCollection : CtyValue → Bool
  | .listV _ => true
  | .setV _ => true
  | .mapV _ => true
  | _ => false

/-- Model of the element sequence produced by `val.ElementIterator()` on a
collection value (for a map, the iterator yields the element values). -/
def ctyElements : CtyValue → List CtyValue
  | .listV xs => xs
  | .setV xs => xs
  | .mapV kvs => kvs.map Prod.snd
  | _ => []

/-- Model of `v.Type() == cty.String`. -/
def ctyIsString : CtyValue → Bool
  | .str _ => true
  | _ => false

/-- Go function `extractIgnoreChanges`: if the value is a collection, collect
its string elements in iteration order (non-string elements are skipped);
otherwise produce no names. -/
def extractIgnoreChanges (val : CtyValue) : List String :=
  if ctyIsCollection val then
    (ctyElements val).filterMap (fun v => match v with | .str s => some s | _ => none)
  else []

/-- Go helper `contains`: linear membership scan over a string slice. -/
def contains (list : List String) (s : String) : Bool :=
  match list with
  | [] => false
  | v :: rest => if v = s then true else contains rest s

/-- Lookup in an association list modelling a Go map read (`m[k]`, which is
nil/absent when the key is unbound). -/
def lookupA {α : Type} : List (String × α) → String → Option α
  | [], _ => none
  | (k, v) :: rest, key => if k = key then some v else lookupA rest key

/-- Update of an association list modelling a Go map write (`m[k] = v`):
replace the binding when the key is present, otherwise append it. -/
def insertAssoc {α : Type} : List (String × α) → String → α → List (String × α)
  | [], k, v => [(k, v)]
  | (k0, v0) :: rest, k, v =>
    if k0 = k then (k, v) :: rest else (k0, v0) :: insertAssoc rest k v

mutual

/-- Raw configuration body (`hclsyntax.Body`): the attribute map, with each
attribute's expression already evaluated to its `CtyValue`, and the nested
block list. -/
inductive HclBody : Type where
  | mk : List (String × CtyValue) → List HclBlock → HclBody

/-- Raw nested block (`hclsyntax.Block`): type name, labels and body. -/
inductive HclBlock : Type where
  | mk : String → List String → HclBody → HclBlock

end

/-- Accessor for the attribute map of a raw body. -/
def HclBody.attributes : HclBody → List (String × CtyValue)
  | .mk a _ => a

/-- Accessor for the nested block list of a raw body. -/
def HclBody.blocks : HclBody → List HclBlock
  | .mk _ b => b

/-- Accessor for the type name of a raw block. -/
def HclBlock.type : HclBlock → String
  | .mk t _ _ => t

/-- Accessor for the labels of a raw block. -/
def HclBlock.labels : HclBlock → List String
  | .mk _ l _ => l

/-- Accessor for the body of a raw block. -/
def HclBlock.body : HclBlock → HclBody
  | .mk _ _ b => b

/-- Normalized shape of one configuration block (Go struct `BlockData`).
`properties` is the set of attribute names present, `staticBlocks` and
`dynamicBlocks` map type names to child block data (the Go value type
`*ParsedBlock` is a one-field wrapper around `BlockData`, flattened here),
and `ignoreChanges` is the lifecycle exclusion list. -/
inductive BlockData : Type where
  | mk : List String → List (String × BlockData) → List (String × BlockData) →
      List String → BlockData

/-- Accessor for the attribute-presence set. -/
def BlockData.properties : BlockData → List String
  | .mk p _ _ _ => p

/-- Accessor for the literal nested blocks. -/
def BlockData.staticBlocks : BlockData → List (String × BlockData)
  | .mk _ s _ _ => s

/-- Accessor for the merged dynamic blocks. -/
def BlockData.dynamicBlocks : BlockData → List (String × BlockData)
  | .mk _ _ d _ => d

/-- Accessor for the lifecycle exclusion list. -/
def BlockData.ignoreChanges : BlockData → List String
  | .mk _ _ _ i => i

/-- Go constructor `NewBlockData`: all fields empty. -/
def NewBlockData : BlockData := .mk [] [] [] []

/-- Record an attribute name in `properties` (`bd.properties[name] = true`;
the map is a set, so a present name is left as is). -/
def setProp (bd : BlockData) (name : String) : BlockData :=
  match bd with
  | .mk p s d i => if contains p name then .mk p s d i else .mk (p ++ [name]) s d i

/-- Write one binding of `staticBlocks` (`bd.staticBlocks[name] = v`). -/
def setStaticEntry (bd : BlockData) (name : String) (v : BlockData) : BlockData :=
  match bd with
  | .mk p s d i => .mk p (insertAssoc s name v) d i

/-- Write one binding of `dynamicBlocks` (`bd.dynamicBlocks[name] = v`). -/
def setDynamicEntry (bd : BlockData) (name : String) (v : BlockData) : BlockData :=
  match bd with
  | .mk p s d i => .mk p s (insertAssoc d name v) i

/-- Replace the `ignoreChanges` field (`bd.ignoreChanges = l`). -/
def setIgnore (bd : BlockData) (l : List String) : BlockData :=
  match bd with
  | .mk p s d _ => .mk p s d l

/-- Go method `ParseAttributes`: record every attribute name present in the
body. -/
def ParseAttributes (bd : BlockData) (body : HclBody) : BlockData :=
  body.attributes.foldl (fun acc kv => setProp acc kv.1) bd

/-- Go method `parseLifecycle`: scan the lifecycle body's attributes and, for
the one named `ignore_changes`, replace the exclusion list with the names
extracted from its value. -/
def parseLifecycle (bd : BlockData) (body : HclBody) : BlockData :=
  body.attributes.foldl
    (fun acc kv =>
      if kv.1 = "ignore_changes" then setIgnore acc (extractIgnoreChanges kv.2) else acc)
    bd

/-- Loop body of Go's `findContentBlock`: first nested block literally named
`content`, if any. -/
def findContentIn : List HclBlock → Option HclBody
  | [] => none
  | b :: rest => if b.type = "content" then some b.body else findContentIn rest

/-- Go function `findContentBlock`: the body of the first nested `content`
block, falling back to the given body itself. -/
def findContentBlock (body : HclBody) : HclBody :=
  match findContentIn body.blocks with
  | some b => b
  | none => body

mutual

/-- Go function `mergeBlocks`: merge `src` into `dest` — union the property
sets, merge the two block maps recursively on key collision (taking the new
entry otherwise) and concatenate the exclusion lists. -/
def mergeBlocks (dest src : BlockData) : BlockData :=
  match src with
  | .mk sprops sstatic sdynamic signore =>
    let d1 := sprops.foldl (fun acc k => setProp acc k) dest
    let d2 := mergeStaticInto d1 sstatic
    let d3 := mergeDynamicInto d2 sdynamic
    setIgnore d3 (d3.ignoreChanges ++ signore)

/-- Loop of `mergeBlocks` over `src.staticBlocks`. -/
def mergeStaticInto (dest : BlockData) : List (String × BlockData) → BlockData
  | [] => dest
  | (k, v) :: rest =>
    match lookupA dest.staticBlocks k with
    | some existing => mergeStaticInto (setStaticEntry dest k (mergeBlocks existing v)) rest
    | none => mergeStaticInto (setStaticEntry dest k v) rest

/-- Loop of `mergeBlocks` over `src.dynamicBlocks`. -/
def mergeDynamicInto (dest : BlockData) : List (String × BlockData) → BlockData
  | [] => dest
  | (k, v) :: rest =>
    match lookupA dest.dynamicBlocks k with
    | some existing => mergeDynamicInto (setDynamicEntry dest k (mergeBlocks existing v)) rest
    | none => mergeDynamicInto (setDynamicEntry dest k v) rest

end

mutual

/-- Go function `ParseSyntaxBody`: build a fresh `BlockData` from a raw body
by recording its attributes and then processing its nested blocks. -/
def ParseSyntaxBody (body : HclBody) : BlockData :=
  match body with
  | .mk battrs bblocks =>
    parseBlocksList (ParseAttributes NewBlockData (HclBody.mk battrs bblocks)) bblocks
termination_by sizeOf body
decreasing_by
  all_goals simp [HclBody.mk.sizeOf_spec]

/-- Loop of Go's `ParseBlocks` over the nested block list. -/
def parseBlocksList (bd : BlockData) : List HclBlock → BlockData
  | [] => bd
  | b :: rest => parseBlocksList (parseOneBlock bd b) rest
termination_by l => sizeOf l
decreasing_by
  all_goals simp [List.cons.sizeOf_spec]
  all_goals omega

/-- One iteration of Go's `ParseBlocks` switch: a `lifecycle` block feeds the
exclusion list, a `dynamic` block with exactly one label is resolved and
merged into `dynamicBlocks` (the body of Go's `parseDynamicBlock`, inlined
here for termination; see `parseDynamicBlock` below), a `dynamic` block with
any other label count is dropped, and any other block is parsed and stored
in `staticBlocks` under its type name. -/
def parseOneBlock (bd : BlockData) (b : HclBlock) : BlockData :=
  match b with
  | .mk btype blabels bbody =>
    if btype = "lifecycle" then parseLifecycle bd bbody
    else if btype = "dynamic" then
      match blabels with
      | [l] =>
        let parsed := ParseSyntaxBody (findContentBlock bbody)
        match lookupA bd.dynamicBlocks l with
        | some existing => setDynamicEntry bd l (mergeBlocks existing parsed)
        | none => setDynamicEntry bd l parsed
      | _ => bd
    else setStaticEntry bd btype (ParseSyntaxBody bbody)
termination_by sizeOf b
decreasing_by
  · have hfind : ∀ (bs : List HclBlock) (r : HclBody),
        findContentIn bs = some r → sizeOf r < sizeOf bs := by
      intro bs
      induction bs with
      | nil => intro r h; simp [findContentIn] at h
      | cons hd tl ih =>
        intro r h
        simp only [findContentIn] at h
        by_cases hc : hd.type = "content"
        · rw [if_pos hc] at h
          cases h
          cases hd
          simp [HclBlock.body, HclBlock.mk.sizeOf_spec, List.cons.sizeOf_spec]
          omega
        · rw [if_neg hc] at h
          have htl := ih r h
          simp [List.cons.sizeOf_spec]
          omega
    have hle : ∀ (body0 : HclBody), sizeOf (findContentBlock body0) ≤ sizeOf body0 := by
      intro body0
      rw [findContentBlock]
      cases hfc : findContentIn body0.blocks with
      | none => exact le_refl _
      | some r =>
        show sizeOf r ≤ sizeOf body0
        have h1 := hfind body0.blocks r hfc
        have h2 : sizeOf body0.blocks < sizeOf body0 := by
          cases body0
          simp [HclBody.blocks, HclBody.mk.sizeOf_spec]
        omega
    refine lt_of_le_of_lt (hle _) ?_
    simp [HclBlock.mk.sizeOf_spec]
  · simp [HclBlock.mk.sizeOf_spec]

end

/-- Go method `parseDynamicBlock`: resolve a dynamic block's rendered shape
(its `content` child, or the body itself) and merge it into
`dynamicBlocks[name]`.  Equal to the dynamic branch of `parseOneBlock`. -/
def parseDynamicBlock (bd : BlockData) (body : HclBody) (name : String) : BlockData :=
  let parsed := ParseSyntaxBody (findContentBlock body)
  match lookupA bd.dynamicBlocks name with
  | some existing => setDynamicEntry bd name (mergeBlocks existing parsed)
  | none => setDynamicEntry bd name parsed

/-- Go method `ParseBlocks`: process every nested block of a body. -/
def ParseBlocks (bd : BlockData) (body : HclBody) : BlockData :=
  parseBlocksList bd body.blocks

/-- Go method `validateAttributes`: for every schema attribute that is not
computed and not excluded, emit a finding when the name is absent from the
block's property set. -/
def validateAttributes (bd : BlockData) (resType path : String) (schema : SchemaBlock)
    (ignore : List String) : List ValidationFinding :=
  schema.attributes.filterMap
    (fun kv =>
      if kv.2.computed || contains ignore kv.1 then none
      else if contains bd.properties kv.1 then none
      else some (ValidationFinding.mk resType path kv.1 kv.2.required false))

mutual

/-- Go method `Validate`: return immediately on an absent schema node,
otherwise extend the inherited exclusion list with the block's own and run
the attribute pass followed by the block pass. -/
def Validate (bd : BlockData) (resType path : String) (schema : Option SchemaBlock)
    (parentIgnore : List String) : List ValidationFinding :=
  match schema with
  | none => []
  | some (.mk attrs bts) =>
    let ignore := parentIgnore ++ bd.ignoreChanges
    validateAttributes bd resType path (SchemaBlock.mk attrs bts) ignore ++
      validateBlocksGo bd resType path bts ignore
termination_by sizeOf schema

/-- Loop of Go's `validateBlocks` over the schema's block types: skip the
reserved `timeouts` name and excluded names; report a block with neither a
static nor a dynamic child as missing; otherwise recurse into the static
child if present, else the dynamic one, extending the path. -/
def validateBlocksGo (bd : BlockData) (resType path : String)
    (bts : List (String × SchemaBlockType)) (ignore : List String) :
    List ValidationFinding :=
  match bts with
  | [] => []
  | (name, SchemaBlockType.mk _nst mi _ma blk) :: rest =>
    (if name = "timeouts" || contains ignore name then []
     else
       match lookupA bd.staticBlocks name, lookupA bd.dynamicBlocks name with
       | none, none =>
         [ValidationFinding.mk resType path name (decide (mi > 0)) true]
       | some st, _ => Validate st resType (path ++ "." ++ name) blk ignore
       | none, some dy => Validate dy resType (path ++ "." ++ name) blk ignore) ++
    validateBlocksGo bd resType path rest ignore
termination_by sizeOf bts

end

/-- Go method `validateBlocks`: the block pass over a schema node. -/
def validateBlocks (bd : BlockData) (resType path : String) (schema : SchemaBlock)
    (ignore : List String) : List ValidationFinding :=
  validateBlocksGo bd resType path schema.blockTypes ignore


/-- Concrete body for the round-trip scenario of the attribute pass:
attributes `a` and `b`, no nested blocks. -/
def c2Body : HclBody :=
  HclBody.mk [("a", CtyValue.boolV true), ("b", CtyValue.str "eastus")] []

/-- Concrete schema for the round-trip scenario: attributes `a`, `b`, `c`,
none computed, with `c`'s required flag left as a parameter. -/
def c2Schema (rc : Bool) : SchemaBlock :=
  SchemaBlock.mk
    [("a", SchemaAttribute.mk true false false),
     ("b", SchemaAttribute.mk false true false),
     ("c", SchemaAttribute.mk rc (!rc) false)] []

/-- Concrete body for the root-exclusion scenario: a lifecycle block whose
`ignore_changes` value is a collection holding the string `tags`. -/
def c4Body : HclBody :=
  HclBody.mk []
    [HclBlock.mk "lifecycle" []
      (HclBody.mk [("ignore_changes", CtyValue.listV [CtyValue.str "tags"])] [])]

/-- Concrete schema for the root-exclusion scenario: one required attribute
named `tags`. -/
def c4Schema : SchemaBlock :=
  SchemaBlock.mk [("tags", SchemaAttribute.mk true false false)] []

/-- Concrete body for the dynamic-merge scenario: two dynamic declarations
labelled `rule`, whose content blocks carry attributes `x` and `y`. -/
def c7Body : HclBody :=
  HclBody.mk []
    [HclBlock.mk "dynamic" ["rule"]
      (HclBody.mk [] [HclBlock.mk "content" [] (HclBody.mk [("x", CtyValue.boolV true)] [])]),
     HclBlock.mk "dynamic" ["rule"]
      (HclBody.mk [] [HclBlock.mk "content" [] (HclBody.mk [("y", CtyValue.num 2)] [])])]

/-- Concrete child bodies for the duplicate-literal-block scenario. -/
def c9BodyA : HclBody := HclBody.mk [("p", CtyValue.boolV true)] []

/-- Second concrete child body for the duplicate-literal-block scenario. -/
def c9BodyB : HclBody := HclBody.mk [("q", CtyValue.boolV true)] []

/-- Concrete body carried by a malformed dynamic block in the label-count
scenario. -/
def c10Body : HclBody := HclBody.mk [("z", CtyValue.num 1)] []

/-- Simp lemma for the `properties` accessor. -/
@[simp] theorem BlockData.properties_mk (p s d i) :
    (BlockData.mk p s d i).properties = p := rfl

/-- Simp lemma for the `staticBlocks` accessor. -/
@[simp] theorem BlockData.staticBlocks_mk (p s d i) :
    (BlockData.mk p s d i).staticBlocks = s := rfl

/-- Simp lemma for the `dynamicBlocks` accessor. -/
@[simp] theorem BlockData.dynamicBlocks_mk (p s d i) :
    (BlockData.mk p s d i).dynamicBlocks = d := rfl

/-- Simp lemma for the `ignoreChanges` accessor. -/
@[simp] theorem BlockData.ignoreChanges_mk (p s d i) :
    (BlockData.mk p s d i).ignoreChanges = i := rfl

/-- Simp lemma for the `attributes` accessor. -/
@[simp] theorem SchemaBlock.attributes_mk (a b) :
    (SchemaBlock.mk a b).attributes = a := rfl

/-- Simp lemma for the `blockTypes` accessor. -/
@[simp] theorem SchemaBlock.blockTypes_mk (a b) :
    (SchemaBlock.mk a b).blockTypes = b := rfl

/-- Simp lemma for the `minItems` accessor. -/
@[simp] theorem SchemaBlockType.minItems_mk (n mi ma b) :
    (SchemaBlockType.mk n mi ma b).minItems = mi := rfl

/-- Simp lemma for the `block` accessor. -/
@[simp] theorem SchemaBlockType.block_mk (n mi ma b) :
    (SchemaBlockType.mk n mi ma b).block = b := rfl

/-- Simp lemma for the `attributes` accessor of a raw body. -/
@[simp] theorem HclBody.attributesOf_mk (a b) : (HclBody.mk a b).attributes = a := rfl

/-- Simp lemma for the `blocks` accessor of a raw body. -/
@[simp] theorem HclBody.blocks_mk (a b) : (HclBody.mk a b).blocks = b := rfl

/-- Simp lemma for the `type` accessor of a raw block. -/
@[simp] theorem HclBlock.type_mk (t l b) : (HclBlock.mk t l b).type = t := rfl

/-- Simp lemma for the `labels` accessor of a raw block. -/
@[simp] theorem HclBlock.labels_mk (t l b) : (HclBlock.mk t l b).labels = l := rfl

/-- Simp lemma for the `body` accessor of a raw block. -/
@[simp] theorem HclBlock.body_mk (t l b) : (HclBlock.mk t l b).body = b := rfl

/-- Go's `contains` decides list membership. -/
theorem contains_iff (l : List String) (s : String) : contains l s = true ↔ s ∈ l := by
  induction l with
  | nil => simp [contains]
  | cons v rest ih =>
    by_cases h : v = s
    · subst h; simp [contains]
    · simp [contains, h, ih, Ne.symm h]

/-- `contains` distributes over list concatenation as boolean or. -/
theorem contains_append (l1 l2 : List String) (s : String) :
    contains (l1 ++ l2) s = (contains l1 s || contains l2 s) := by
  induction l1 with
  | nil => simp [contains]
  | cons v rest ih =>
    by_cases h : v = s
    · subst h; simp [contains]
    · simp [contains, h, ih]

/-- Lookup after a map write: the written key reads back the new value, any
other key is unaffected. -/
theorem lookupA_insertAssoc {α : Type} (m : List (String × α)) (k key : String) (v : α) :
    lookupA (insertAssoc m k v) key = if k = key then some v else lookupA m key := by
  induction m with
  | nil => simp [insertAssoc, lookupA]
  | cons kv rest ih =>
    obtain ⟨k0, v0⟩ := kv
    by_cases h0 : k0 = k
    · subst h0
      by_cases hk : k0 = key <;> simp [insertAssoc, lookupA, hk]
    · by_cases hk : k0 = key
      · subst hk
        have : ¬(k = k0) := fun hh => h0 hh.symm
        simp [insertAssoc, lookupA, h0, this]
      · simp [insertAssoc, lookupA, h0, hk, ih]

/-- A successful lookup exhibits a binding in the list. -/
theorem lookupA_mem {α : Type} {m : List (String × α)} {k : String} {v : α}
    (h : lookupA m k = some v) : (k, v) ∈ m := by
  induction m with
  | nil => simp [lookupA] at h
  | cons kv rest ih =>
    obtain ⟨k0, v0⟩ := kv
    by_cases h0 : k0 = k
    · subst h0
      simp [lookupA] at h
      simp [h]
    · simp [lookupA, h0] at h
      exact List.mem_cons_of_mem _ (ih h)

/-- A lookup misses exactly when the key is unbound. -/
theorem lookupA_eq_none_iff {α : Type} (m : List (String × α)) (k : String) :
    lookupA m k = none ↔ k ∉ m.map Prod.fst := by
  induction m with
  | nil => simp [lookupA]
  | cons kv rest ih =>
    obtain ⟨k0, v0⟩ := kv
    by_cases h0 : k0 = k
    · subst h0
      simp [lookupA]
    · simp [lookupA, h0, ih, Ne.symm h0]

/-- In a map with duplicate-free keys, bindings of the same key agree. -/
theorem assoc_key_unique {α : Type} {l : List (String × α)} {k : String} {a b : α}
    (hnd : (l.map Prod.fst).Nodup) (ha : (k, a) ∈ l) (hb : (k, b) ∈ l) : a = b := by
  induction l with
  | nil => simp at ha
  | cons kv rest ih =>
    obtain ⟨k0, v0⟩ := kv
    simp only [List.map_cons, List.nodup_cons] at hnd
    rcases List.mem_cons.mp ha with ha1 | ha2
    · rcases List.mem_cons.mp hb with hb1 | hb2
      · cases ha1; cases hb1; rfl
      · cases ha1
        exact absurd (List.mem_map_of_mem Prod.fst hb2) (by simpa using hnd.1)
    · rcases List.mem_cons.mp hb with hb1 | hb2
      · cases hb1
        exact absurd (List.mem_map_of_mem Prod.fst ha2) (by simpa using hnd.1)
      · exact ih hnd.2 ha2 hb2

/-- Unfolding equation of `Validate` on an absent schema node. -/
theorem Validate_none (bd : BlockData) (rt p : String) (ign : List String) :
    Validate bd rt p none ign = [] := by
  simp [Validate]

/-- Unfolding equation of `Validate` on a present schema node. -/
theorem Validate_some (bd : BlockData) (rt p : String)
    (attrs : List (String × SchemaAttribute)) (bts : List (String × SchemaBlockType))
    (ign : List String) :
    Validate bd rt p (some (SchemaBlock.mk attrs bts)) ign =
      validateAttributes bd rt p (SchemaBlock.mk attrs bts) (ign ++ bd.ignoreChanges) ++
        validateBlocksGo bd rt p bts (ign ++ bd.ignoreChanges) := by
  simp [Validate]

/-- Unfolding equation of the block pass on an empty block-type map. -/
theorem validateBlocksGo_nil (bd : BlockData) (rt p : String) (ign : List String) :
    validateBlocksGo bd rt p [] ign = [] := by
  simp [validateBlocksGo]

/-- Unfolding equation of the block pass on a nonempty block-type map. -/
theorem validateBlocksGo_cons (bd : BlockData) (rt p name nst : String) (mi ma : Int)
    (blk : Option SchemaBlock) (rest : List (String × SchemaBlockType))
    (ign : List String) :
    validateBlocksGo bd rt p ((name, SchemaBlockType.mk nst mi ma blk) :: rest) ign =
      (if name = "timeouts" || contains ign name then []
       else
         match lookupA bd.staticBlocks name, lookupA bd.dynamicBlocks name with
         | none, none => [ValidationFinding.mk rt p name (decide (mi > 0)) true]
         | some st, _ => Validate st rt (p ++ "." ++ name) blk ign
         | none, some dy => Validate dy rt (p ++ "." ++ name) blk ign) ++
      validateBlocksGo bd rt p rest ign := by
  simp [validateBlocksGo]

/-- Unfolding equation of `ParseSyntaxBody`. -/
theorem ParseSyntaxBody_def (attrs : List (String × CtyValue)) (blocks : List HclBlock) :
    ParseSyntaxBody (HclBody.mk attrs blocks) =
      parseBlocksList (ParseAttributes NewBlockData (HclBody.mk attrs blocks)) blocks := by
  simp [ParseSyntaxBody]

/-- Unfolding equation of the block loop on an empty list. -/
theorem parseBlocksList_nil (bd : BlockData) : parseBlocksList bd [] = bd := by
  simp [parseBlocksList]

/-- Unfolding equation of the block loop on a nonempty list. -/
theorem parseBlocksList_cons (bd : BlockData) (b : HclBlock) (rest : List HclBlock) :
    parseBlocksList bd (b :: rest) = parseBlocksList (parseOneBlock bd b) rest := by
  simp [parseBlocksList]

/-- A `lifecycle` block feeds `parseLifecycle`. -/
theorem parseOneBlock_lifecycle (bd : BlockData) (ls : List String) (body : HclBody) :
    parseOneBlock bd (HclBlock.mk "lifecycle" ls body) = parseLifecycle bd body := by
  rw [parseOneBlock.eq_def]
  simp

/-- A `dynamic` block with exactly one label feeds `parseDynamicBlock`. -/
theorem parseOneBlock_dynamic_one (bd : BlockData) (l : String) (body : HclBody) :
    parseOneBlock bd (HclBlock.mk "dynamic" [l] body) = parseDynamicBlock bd body l := by
  rw [parseOneBlock.eq_def]
  simp [parseDynamicBlock]

/-- A `dynamic` block with zero labels or two or more labels is dropped. -/
theorem parseOneBlock_dynamic_other (bd : BlockData) (ls : List String) (body : HclBody)
    (h : ls.length ≠ 1) :
    parseOneBlock bd (HclBlock.mk "dynamic" ls body) = bd := by
  cases ls with
  | nil =>
    rw [parseOneBlock.eq_def]
    simp
  | cons a t =>
    cases t with
    | nil => simp at h
    | cons b t2 =>
      rw [parseOneBlock.eq_def]
      simp

/-- Any other block is parsed and stored under its type name. -/
theorem parseOneBlock_static (bd : BlockData) (t : String) (ls : List String)
    (body : HclBody) (h1 : t ≠ "lifecycle") (h2 : t ≠ "dynamic") :
    parseOneBlock bd (HclBlock.mk t ls body) = setStaticEntry bd t (ParseSyntaxBody body) := by
  rw [parseOneBlock.eq_def]
  simp [h1, h2]

/-- Unfolding equation of `mergeBlocks`. -/
theorem mergeBlocks_def (dest : BlockData) (sp : List String)
    (ss sd : List (String × BlockData)) (si : List String) :
    mergeBlocks dest (BlockData.mk sp ss sd si) =
      setIgnore (mergeDynamicInto (mergeStaticInto (sp.foldl (fun acc k => setProp acc k) dest) ss) sd)
        ((mergeDynamicInto (mergeStaticInto (sp.foldl (fun acc k => setProp acc k) dest) ss) sd).ignoreChanges ++ si) := by
  simp [mergeBlocks]

/-- Unfolding equation of the static merge loop on an empty list. -/
theorem mergeStaticInto_nil (dest : BlockData) : mergeStaticInto dest [] = dest := by
  simp [mergeStaticInto]

/-- Static merge loop: key collision merges recursively. -/
theorem mergeStaticInto_cons_some (dest : BlockData) (k : String) (v e : BlockData)
    (rest : List (String × BlockData)) (h : lookupA dest.staticBlocks k = some e) :
    mergeStaticInto dest ((k, v) :: rest) =
      mergeStaticInto (setStaticEntry dest k (mergeBlocks e v)) rest := by
  simp [mergeStaticInto, h]

/-- Static merge loop: a fresh key takes the new entry. -/
theorem mergeStaticInto_cons_none (dest : BlockData) (k : String) (v : BlockData)
    (rest : List (String × BlockData)) (h : lookupA dest.staticBlocks k = none) :
    mergeStaticInto dest ((k, v) :: rest) = mergeStaticInto (setStaticEntry dest k v) rest := by
  simp [mergeStaticInto, h]

/-- Unfolding equation of the dynamic merge loop on an empty list. -/
theorem mergeDynamicInto_nil (dest : BlockData) : mergeDynamicInto dest [] = dest := by
  simp [mergeDynamicInto]

/-- Dynamic merge loop: key collision merges recursively. -/
theorem mergeDynamicInto_cons_some (dest : BlockData) (k : String) (v e : BlockData)
    (rest : List (String × BlockData)) (h : lookupA dest.dynamicBlocks k = some e) :
    mergeDynamicInto dest ((k, v) :: rest) =
      mergeDynamicInto (setDynamicEntry dest k (mergeBlocks e v)) rest := by
  simp [mergeDynamicInto, h]

/-- Dynamic merge loop: a fresh key takes the new entry. -/
theorem mergeDynamicInto_cons_none (dest : BlockData) (k : String) (v : BlockData)
    (rest : List (String × BlockData)) (h : lookupA dest.dynamicBlocks k = none) :
    mergeDynamicInto dest ((k, v) :: rest) = mergeDynamicInto (setDynamicEntry dest k v) rest := by
  simp [mergeDynamicInto, h]

/-- String elements survive the extractor and non-string elements are
dropped, so filtering to strings first changes nothing. -/
theorem filterMap_str_filter (xs : List CtyValue) :
    (xs.filter ctyIsString).filterMap
        (fun v => match v with | CtyValue.str s => some s | _ => none)
      = xs.filterMap (fun v => match v with | CtyValue.str s => some s | _ => none) := by
  induction xs with
  | nil => rfl
  | cons v rest ih => cases v <;> simp [List.filter, List.filterMap, ih, ctyIsString]

/-- Extracting from a list of string values returns exactly those strings. -/
theorem filterMap_str_map (ss : List String) :
    (ss.map CtyValue.str).filterMap
        (fun v => match v with | CtyValue.str s => some s | _ => none) = ss := by
  induction ss with
  | nil => rfl
  | cons s rest ih => simp [List.filterMap, ih]

/-- C1 (amended): `extractIgnoreChanges` yields the string elements of a
collection value (list, set, or map of values) with non-string elements
silently skipped, and yields zero exclusions for every non-collection value,
including a single string and a tuple. -/
theorem spec_C1 :
    (∀ xs : List CtyValue,
        extractIgnoreChanges (CtyValue.listV (xs.filter ctyIsString))
            = extractIgnoreChanges (CtyValue.listV xs)
          ∧ extractIgnoreChanges (CtyValue.setV (xs.filter ctyIsString))
            = extractIgnoreChanges (CtyValue.setV xs)
          ∧ extractIgnoreChanges (CtyValue.tupleV xs) = [])
      ∧ (∀ ss : List String,
          extractIgnoreChanges (CtyValue.listV (ss.map CtyValue.str)) = ss
            ∧ extractIgnoreChanges (CtyValue.setV (ss.map CtyValue.str)) = ss)
      ∧ (∀ kvs : List (String × CtyValue),
          extractIgnoreChanges (CtyValue.mapV kvs)
            = extractIgnoreChanges (CtyValue.listV (kvs.map Prod.snd)))
      ∧ (∀ s, extractIgnoreChanges (CtyValue.str s) = [])
      ∧ (∀ n, extractIgnoreChanges (CtyValue.num n) = [])
      ∧ (∀ b, extractIgnoreChanges (CtyValue.boolV b) = [])
      ∧ (∀ kvs, extractIgnoreChanges (CtyValue.objV kvs) = [])
      ∧ extractIgnoreChanges CtyValue.nullV = [] := by
  refine ⟨?_, ?_, ?_, ?_, ?_, ?_, ?_, rfl⟩
  · intro xs
    refine ⟨?_, ?_, rfl⟩
    · simp [extractIgnoreChanges, ctyIsCollection, ctyElements, filterMap_str_filter]
    · simp [extractIgnoreChanges, ctyIsCollection, ctyElements, filterMap_str_filter]
  · intro ss
    constructor
    · simpa [extractIgnoreChanges, ctyIsCollection, ctyElements] using filterMap_str_map ss
    · simpa [extractIgnoreChanges, ctyIsCollection, ctyElements] using filterMap_str_map ss
  · intro kvs
    rfl
  · intro s
    rfl
  · intro n
    rfl
  · intro b
    rfl
  · intro kvs
    rfl

/-- C1 counterexample: a single-string `ignore_changes` value yields no
exclusion at all, not the one name the claim predicts, because a string is
not a go-cty collection type. -/
theorem spec_C1_counterexample :
    extractIgnoreChanges (CtyValue.str "tags") = [] ∧
      extractIgnoreChanges (CtyValue.str "tags") ≠ ["tags"] := by
  exact ⟨rfl, by decide⟩

/-- C6: `Validate` on an absent (nil) schema node returns immediately with
zero findings, at whichever level it is invoked. -/
theorem spec_C6 : ∀ (bd : BlockData) (rt p : String) (ign : List String),
    Validate bd rt p none ign = [] := by
  intro bd rt p ign
  exact Validate_none bd rt p ign

/-- Membership characterization of the attribute pass: its findings are
exactly one per schema attribute that is not computed, not excluded and
absent from the block's property set. -/
theorem mem_validateAttributes {bd : BlockData} {rt p : String}
    {attrs : List (String × SchemaAttribute)} {bts : List (String × SchemaBlockType)}
    {ign : List String} {f : ValidationFinding} :
    f ∈ validateAttributes bd rt p (SchemaBlock.mk attrs bts) ign ↔
      ∃ n a, (n, a) ∈ attrs ∧ a.computed = false ∧ contains ign n = false ∧
        contains bd.properties n = false ∧
        f = ValidationFinding.mk rt p n a.required false := by
  simp only [validateAttributes, SchemaBlock.attributes_mk, List.mem_filterMap]
  constructor
  · rintro ⟨⟨n, a⟩, hmem, hsome⟩
    simp only at hsome
    by_cases hcond : (a.computed || contains ign n) = true
    · rw [if_pos hcond] at hsome
      exact absurd hsome (by simp)
    · rw [if_neg hcond] at hsome
      by_cases hprop : contains bd.properties n = true
      · rw [if_pos hprop] at hsome
        exact absurd hsome (by simp)
      · rw [if_neg hprop] at hsome
        have hsplit := Bool.or_eq_false_iff.mp (Bool.not_eq_true _ |>.mp hcond)
        refine ⟨n, a, hmem, hsplit.1, hsplit.2, Bool.not_eq_true _ |>.mp hprop,
          (Option.some.inj hsome).symm⟩
  · rintro ⟨n, a, hmem, hc, hi, hp, rfl⟩
    refine ⟨(n, a), hmem, ?_⟩
    simp [hc, hi, hp]

/-- The attribute pass emits no finding named `n` when the schema has no
attribute entry keyed `n`. -/
theorem filter_validateAttributes_notmem (bd : BlockData) (rt p : String)
    (attrs : List (String × SchemaAttribute)) (bts : List (String × SchemaBlockType))
    (ign : List String) (n : String) (h : n ∉ attrs.map Prod.fst) :
    (validateAttributes bd rt p (SchemaBlock.mk attrs bts) ign).filter
      (fun f => f.Name == n) = [] := by
  rw [List.filter_eq_nil_iff]
  intro f hf
  obtain ⟨n0, a0, hmem, _, _, _, rfl⟩ := mem_validateAttributes.mp hf
  have hne : n0 ≠ n := fun he => h (he ▸ List.mem_map_of_mem Prod.fst hmem)
  simp [ValidationFinding.Name, hne]

/-- The attribute pass emits no finding for a name present in the block's
property set. -/
theorem filter_validateAttributes_present (bd : BlockData) (rt p : String)
    (attrs : List (String × SchemaAttribute)) (bts : List (String × SchemaBlockType))
    (ign : List String) (n : String) (hp : contains bd.properties n = true) :
    (validateAttributes bd rt p (SchemaBlock.mk attrs bts) ign).filter
      (fun f => f.Name == n) = [] := by
  rw [List.filter_eq_nil_iff]
  intro f hf
  obtain ⟨n0, a0, hmem0, hc0, hi0, hp0, rfl⟩ := mem_validateAttributes.mp hf
  by_cases he : n0 = n
  · subst he
    rw [hp0] at hp
    exact absurd hp (by simp)
  · simp [ValidationFinding.Name, he]

/-- Unfolding of the attribute pass over a nonempty attribute map. -/
theorem validateAttributes_cons (bd : BlockData) (rt p k0 : String) (a0 : SchemaAttribute)
    (rest : List (String × SchemaAttribute)) (bts : List (String × SchemaBlockType))
    (ign : List String) :
    validateAttributes bd rt p (SchemaBlock.mk ((k0, a0) :: rest) bts) ign =
      (if (a0.computed || contains ign k0) = true then []
       else if contains bd.properties k0 = true then []
       else [ValidationFinding.mk rt p k0 a0.required false]) ++
      validateAttributes bd rt p (SchemaBlock.mk rest bts) ign := by
  simp only [validateAttributes, SchemaBlock.attributes_mk, List.filterMap_cons]
  by_cases h1 : (a0.computed || contains ign k0) = true
  · simp [h1]
  · by_cases h2 : contains bd.properties k0 = true
    · simp [h1, h2]
    · simp [h1, h2]

/-- The attribute pass emits exactly one finding for a non-computed,
non-excluded schema attribute absent from the block's property set. -/
theorem filter_validateAttributes_absent (bd : BlockData) (rt p : String)
    (attrs : List (String × SchemaAttribute)) (bts : List (String × SchemaBlockType))
    (ign : List String) (n : String) (a : SchemaAttribute)
    (hnd : (attrs.map Prod.fst).Nodup) (hmem : (n, a) ∈ attrs)
    (hc : a.computed = false) (hi : contains ign n = false)
    (hp : contains bd.properties n = false) :
    (validateAttributes bd rt p (SchemaBlock.mk attrs bts) ign).filter
      (fun f => f.Name == n) = [ValidationFinding.mk rt p n a.required false] := by
  induction attrs with
  | nil => simp at hmem
  | cons kv rest ih =>
    obtain ⟨k0, a0⟩ := kv
    simp only [List.map_cons, List.nodup_cons] at hnd
    rw [validateAttributes_cons]
    rcases List.mem_cons.mp hmem with hh | ht
    · obtain ⟨rfl, rfl⟩ : n = k0 ∧ a = a0 := by cases hh; exact ⟨rfl, rfl⟩
      have hrest := filter_validateAttributes_notmem bd rt p rest bts ign n hnd.1
      simp [hc, hi, hp, List.filter_append, hrest]
    · have hk0 : k0 ≠ n := fun he => (he ▸ hnd.1) (List.mem_map_of_mem Prod.fst ht)
      have hrec := ih hnd.2 ht
      by_cases h1 : (a0.computed || contains ign k0) = true
      · simp [h1, List.filter_append, hrec]
      · have h1b : (a0.computed || contains ign k0) = false := Bool.not_eq_true _ |>.mp h1
        by_cases h2 : contains bd.properties k0 = true
        · simp [h1b, h2, List.filter_append, hrec]
        · have h2b : contains bd.properties k0 = false := Bool.not_eq_true _ |>.mp h2
          simp [h1b, h2b, hk0, List.filter_append, hrec]

/-- C2: in the attribute pass, a schema attribute that is not computed and
not excluded produces exactly one finding (with `isBlock=false` and
`required` copied from the schema flag) when absent from the block's
properties, and none when present; and the round-trip scenario — body with
attributes a and b, schema with a, b, c — yields exactly the finding for c. -/
theorem spec_C2 :
    (∀ (bd : BlockData) (rt p : String) (attrs : List (String × SchemaAttribute))
        (bts : List (String × SchemaBlockType)) (ign : List String)
        (n : String) (a : SchemaAttribute),
        (attrs.map Prod.fst).Nodup → (n, a) ∈ attrs → a.computed = false →
        contains ign n = false →
        (validateAttributes bd rt p (SchemaBlock.mk attrs bts) ign).filter
            (fun f => f.Name == n)
          = if contains bd.properties n then []
            else [ValidationFinding.mk rt p n a.required false])
    ∧ (∀ rc : Bool,
        Validate (ParseSyntaxBody c2Body) "azurerm_demo" "root" (some (c2Schema rc)) []
          = [ValidationFinding.mk "azurerm_demo" "root" "c" rc false]) := by
  constructor
  · intro bd rt p attrs bts ign n a hnd hmem hc hi
    by_cases hp : contains bd.properties n = true
    · rw [if_pos hp]
      exact filter_validateAttributes_present bd rt p attrs bts ign n hp
    · rw [if_neg hp]
      exact filter_validateAttributes_absent bd rt p attrs bts ign n a hnd hmem hc hi
        (Bool.not_eq_true _ |>.mp hp)
  · intro rc
    have hbd : ParseSyntaxBody c2Body = BlockData.mk ["a", "b"] [] [] [] := by
      simp [c2Body, ParseSyntaxBody_def, parseBlocksList_nil, ParseAttributes, NewBlockData,
        setProp, contains]
    rw [hbd]
    simp [c2Schema, Validate_some, validateAttributes, validateBlocksGo_nil, contains,
      List.filterMap]

/-- C2 witness: the general attribute-pass statement instantiated at a
concrete schema requiring `tags` against an empty block. -/
theorem spec_C2_witness :
    (validateAttributes NewBlockData "t" "root"
        (SchemaBlock.mk [("tags", SchemaAttribute.mk true false false)] []) []).filter
        (fun f => f.Name == "tags")
      = if contains NewBlockData.properties "tags" then []
        else [ValidationFinding.mk "t" "root" "tags" true false] :=
  spec_C2.1 NewBlockData "t" "root" [("tags", SchemaAttribute.mk true false false)] [] []
    "tags" (SchemaAttribute.mk true false false) (by decide) (by simp) rfl rfl

/-- Every finding of the block pass comes from one schema block-type entry
that passed the `timeouts`/exclusion guard: either a missing-block finding or
a finding of the recursive call into the preferred child. -/
theorem mem_validateBlocksGo {bd : BlockData} {rt p : String}
    {bts : List (String × SchemaBlockType)} {ign : List String} {f : ValidationFinding}
    (hf : f ∈ validateBlocksGo bd rt p bts ign) :
    ∃ name nst mi ma blk, (name, SchemaBlockType.mk nst mi ma blk) ∈ bts ∧
      name ≠ "timeouts" ∧ contains ign name = false ∧
      ((lookupA bd.staticBlocks name = none ∧ lookupA bd.dynamicBlocks name = none ∧
          f = ValidationFinding.mk rt p name (decide (mi > 0)) true) ∨
        (∃ target, (lookupA bd.staticBlocks name = some target ∨
              (lookupA bd.staticBlocks name = none ∧
                lookupA bd.dynamicBlocks name = some target)) ∧
          f ∈ Validate target rt (p ++ "." ++ name) blk ign)) := by
  induction bts with
  | nil =>
    rw [validateBlocksGo_nil] at hf
    simp at hf
  | cons kv rest ih =>
    obtain ⟨name, bt⟩ := kv
    obtain ⟨nst, mi, ma, blk⟩ := bt
    rw [validateBlocksGo_cons] at hf
    rcases List.mem_append.mp hf with h1 | h2
    · by_cases hname : name = "timeouts"
      · simp [hname] at h1
      · by_cases hign : contains ign name = true
        · simp [hname, hign] at h1
        · have hignb : contains ign name = false := Bool.not_eq_true _ |>.mp hign
          rw [if_neg (by simp [hname, hignb])] at h1
          cases hs : lookupA bd.staticBlocks name with
          | some st =>
            rw [hs] at h1
            refine ⟨name, nst, mi, ma, blk, List.mem_cons_self _ _, hname, hignb,
              Or.inr ⟨st, Or.inl hs, ?_⟩⟩
            cases hd : lookupA bd.dynamicBlocks name with
            | some dy => rw [hd] at h1; exact h1
            | none => rw [hd] at h1; exact h1
          | none =>
            rw [hs] at h1
            cases hd : lookupA bd.dynamicBlocks name with
            | some dy =>
              rw [hd] at h1
              exact ⟨name, nst, mi, ma, blk, List.mem_cons_self _ _, hname, hignb,
                Or.inr ⟨dy, Or.inr ⟨hs, hd⟩, h1⟩⟩
            | none =>
              rw [hd] at h1
              simp only [List.mem_singleton] at h1
              exact ⟨name, nst, mi, ma, blk, List.mem_cons_self _ _, hname, hignb,
                Or.inl ⟨hs, hd, h1⟩⟩
    · obtain ⟨name0, nst0, mi0, ma0, blk0, hmem0, h3, h4, h5⟩ := ih h2
      exact ⟨name0, nst0, mi0, ma0, blk0, List.mem_cons_of_mem _ hmem0, h3, h4, h5⟩

/-- Joint invariants of the validator, proved by strong induction on the
size of the schema: every finding's path is the call path or strictly
longer, no finding's name is in the effective exclusion list, and no block
finding is ever named `timeouts`. -/
theorem validate_invariants_aux : ∀ (n : Nat),
    (∀ (schema : Option SchemaBlock), sizeOf schema ≤ n →
      ∀ (bd : BlockData) (rt p : String) (ign : List String) (f : ValidationFinding),
        f ∈ Validate bd rt p schema ign →
        (f.Path = p ∨ p.length < f.Path.length) ∧
          contains (ign ++ bd.ignoreChanges) f.Name = false ∧
          (f.IsBlock = true → f.Name ≠ "timeouts"))
    ∧ (∀ (bts : List (String × SchemaBlockType)), sizeOf bts ≤ n →
      ∀ (bd : BlockData) (rt p : String) (ign : List String) (f : ValidationFinding),
        f ∈ validateBlocksGo bd rt p bts ign →
        (f.Path = p ∨ p.length < f.Path.length) ∧
          contains ign f.Name = false ∧
          (f.IsBlock = true → f.Name ≠ "timeouts")) := by
  intro n
  induction n using Nat.strong_induction_on with
  | _ n ih =>
    constructor
    · intro schema hsz bd rt p ign f hf
      cases schema with
      | none =>
        rw [Validate_none] at hf
        simp at hf
      | some s =>
        obtain ⟨attrs, bts⟩ := s
        rw [Validate_some] at hf
        rcases List.mem_append.mp hf with ha | hb
        · obtain ⟨n0, a0, hmem0, hc0, hi0, hp0, rfl⟩ := mem_validateAttributes.mp ha
          refine ⟨Or.inl rfl, hi0, ?_⟩
          intro habs
          simp [ValidationFinding.IsBlock] at habs
        · have hszb : sizeOf bts < n := by
            have h1 : sizeOf bts < sizeOf (some (SchemaBlock.mk attrs bts)) := by
              simp [SchemaBlock.mk.sizeOf_spec]
              omega
            omega
          exact (ih (sizeOf bts) hszb).2 bts le_rfl bd rt p (ign ++ bd.ignoreChanges) f hb
    · intro bts hsz bd rt p ign f hf
      obtain ⟨name, nst, mi, ma, blk, hmem, hnt, hig, hcase⟩ := mem_validateBlocksGo hf
      rcases hcase with ⟨hs, hd, rfl⟩ | ⟨target, hlk, hrec⟩
      · exact ⟨Or.inl rfl, hig, fun _ => hnt⟩
      · have hblk : sizeOf blk < n := by
          have h1 := List.sizeOf_lt_of_mem hmem
          have h2 : sizeOf blk < sizeOf (name, SchemaBlockType.mk nst mi ma blk) := by
            simp [Prod.mk.sizeOf_spec, SchemaBlockType.mk.sizeOf_spec]
            omega
          omega
        have hres := (ih (sizeOf blk) hblk).1 blk le_rfl target rt (p ++ "." ++ name) ign f hrec
        have hlen : (p ++ "." ++ name).length = p.length + 1 + name.length := by
          simp [String.length_append]
          rfl
        refine ⟨?_, ?_, hres.2.2⟩
        · rcases hres.1 with he | hl
          · right
            rw [he, hlen]
            omega
          · right
            omega
        · have hcontains := hres.2.1
          rw [contains_append] at hcontains
          exact (Bool.or_eq_false_iff.mp hcontains).1

/-- Validator invariants in closed form, at the `Validate` entry point. -/
theorem validate_invariants {schema : Option SchemaBlock} {bd : BlockData} {rt p : String}
    {ign : List String} {f : ValidationFinding} (hf : f ∈ Validate bd rt p schema ign) :
    (f.Path = p ∨ p.length < f.Path.length) ∧
      contains (ign ++ bd.ignoreChanges) f.Name = false ∧
      (f.IsBlock = true → f.Name ≠ "timeouts") :=
  (validate_invariants_aux (sizeOf schema)).1 schema le_rfl bd rt p ign f hf

/-- Validator invariants in closed form, at the block-pass loop. -/
theorem validateBlocksGo_invariants {bts : List (String × SchemaBlockType)} {bd : BlockData}
    {rt p : String} {ign : List String} {f : ValidationFinding}
    (hf : f ∈ validateBlocksGo bd rt p bts ign) :
    (f.Path = p ∨ p.length < f.Path.length) ∧
      contains ign f.Name = false ∧
      (f.IsBlock = true → f.Name ≠ "timeouts") :=
  (validate_invariants_aux (sizeOf bts)).2 bts le_rfl bd rt p ign f hf

/-- A finding produced inside a child recursion never carries the parent's
path: the extended path is strictly longer. -/
theorem validate_path_ne {target : BlockData} {rt p nm : String} {blk : Option SchemaBlock}
    {ign : List String} {f : ValidationFinding}
    (hf : f ∈ Validate target rt (p ++ "." ++ nm) blk ign) : f.Path ≠ p := by
  intro he
  have hlen : (p ++ "." ++ nm).length = p.length + 1 + nm.length := by
    simp [String.length_append]
    rfl
  rcases (validate_invariants hf).1 with h1 | h2
  · rw [he] at h1
    have hsame := congrArg String.length h1
    rw [hlen] at hsame
    omega
  · rw [he] at h2
    rw [hlen] at h2
    omega

/-- A child recursion contributes nothing when filtering for block findings
at the parent's own path. -/
theorem filter_validate_child_nil {target : BlockData} {rt p nm : String}
    {blk : Option SchemaBlock} {ign : List String} (name : String) :
    (Validate target rt (p ++ "." ++ nm) blk ign).filter
      (fun f => f.Name == name && f.Path == p && f.IsBlock) = [] := by
  rw [List.filter_eq_nil_iff]
  intro f hf
  have hne := validate_path_ne hf
  simp [hne]

/-- A finding found at the parent path with `IsBlock=false` must come from
the attribute pass of that very node. -/
theorem attr_finding_at_path {attrs : List (String × SchemaAttribute)}
    {bts : List (String × SchemaBlockType)} {bd : BlockData} {rt p : String}
    {ign : List String} {f : ValidationFinding}
    (hf : f ∈ Validate bd rt p (some (SchemaBlock.mk attrs bts)) ign)
    (hp : f.Path = p) (hb : f.IsBlock = false) :
    f ∈ validateAttributes bd rt p (SchemaBlock.mk attrs bts) (ign ++ bd.ignoreChanges) := by
  rw [Validate_some] at hf
  rcases List.mem_append.mp hf with ha | hb2
  · exact ha
  · exfalso
    obtain ⟨name, nst, mi, ma, blk, hmem, hnt, hig, hcase⟩ := mem_validateBlocksGo hb2
    rcases hcase with ⟨_, _, rfl⟩ | ⟨target, hlk, hrec⟩
    · simp [ValidationFinding.IsBlock] at hb
    · exact validate_path_ne hrec hp

/-- C3: an attribute marked computed in the schema node is never reported
missing at that node, for every block and every invocation context (hence at
every nesting level), regardless of its presence in the block. -/
theorem spec_C3 : ∀ (attrs : List (String × SchemaAttribute))
    (bts : List (String × SchemaBlockType)) (bd : BlockData) (rt p : String)
    (ign : List String) (n : String) (a : SchemaAttribute),
    (attrs.map Prod.fst).Nodup → (n, a) ∈ attrs → a.computed = true →
    ∀ f ∈ Validate bd rt p (some (SchemaBlock.mk attrs bts)) ign,
      ¬(f.IsBlock = false ∧ f.Name = n ∧ f.Path = p) := by
  intro attrs bts bd rt p ign n a hnd hmem hcomp f hf h
  obtain ⟨hb, hn, hp⟩ := h
  have hfa := attr_finding_at_path hf hp hb
  obtain ⟨n0, a0, hmem0, hc0, _, _, rfl⟩ := mem_validateAttributes.mp hfa
  have hn0 : n0 = n := by simpa [ValidationFinding.Name] using hn
  subst hn0
  have heq : a = a0 := assoc_key_unique hnd hmem hmem0
  rw [← heq] at hc0
  rw [hcomp] at hc0
  exact absurd hc0 (by simp)

/-- C3 witness: the computed attribute `id` of a concrete schema is not the
finding the validator emits for the sibling required attribute `name`. -/
theorem spec_C3_witness :
    (((ValidationFinding.mk "t" "root" "name" true false).IsBlock == false) &&
      ((ValidationFinding.mk "t" "root" "name" true false).Name == "id") &&
      ((ValidationFinding.mk "t" "root" "name" true false).Path == "root")) = false := by
  have h := spec_C3
    [("id", SchemaAttribute.mk false false true), ("name", SchemaAttribute.mk true false false)]
    [] NewBlockData "t" "root" [] "id" (SchemaAttribute.mk false false true)
    (by decide) (by simp) rfl
    (ValidationFinding.mk "t" "root" "name" true false)
    (by simp [Validate_some, validateAttributes, validateBlocksGo_nil, contains, NewBlockData,
      List.filterMap])
  revert h
  decide

/-- C4: the effective exclusion list of every call is the ancestor list
concatenated with the block's own `ignoreChanges`; no finding's name is ever
in that effective list; and the concrete root-exclusion scenario (exclusion
list `tags`, schema requiring `tags`, attribute absent) yields no finding. -/
theorem spec_C4 :
    (∀ (bd : BlockData) (rt p : String) (attrs : List (String × SchemaAttribute))
        (bts : List (String × SchemaBlockType)) (parentIgnore : List String),
        Validate bd rt p (some (SchemaBlock.mk attrs bts)) parentIgnore
          = validateAttributes bd rt p (SchemaBlock.mk attrs bts)
              (parentIgnore ++ bd.ignoreChanges) ++
            validateBlocksGo bd rt p bts (parentIgnore ++ bd.ignoreChanges))
    ∧ (∀ (schema : Option SchemaBlock) (bd : BlockData) (rt p : String)
        (ign : List String) (f : ValidationFinding),
        f ∈ Validate bd rt p schema ign →
        contains (ign ++ bd.ignoreChanges) f.Name = false)
    ∧ Validate (ParseSyntaxBody c4Body) "azurerm_demo" "root" (some c4Schema) [] = [] := by
  refine ⟨?_, ?_, ?_⟩
  · intro bd rt p attrs bts pi
    exact Validate_some bd rt p attrs bts pi
  · intro schema bd rt p ign f hf
    exact (validate_invariants hf).2.1
  · have hbd : ParseSyntaxBody c4Body = BlockData.mk [] [] [] ["tags"] := by
      simp [c4Body, ParseSyntaxBody_def, parseBlocksList_cons, parseBlocksList_nil,
        parseOneBlock_lifecycle, parseLifecycle, ParseAttributes, NewBlockData, setIgnore,
        extractIgnoreChanges, ctyIsCollection, ctyElements, List.filterMap]
    rw [hbd]
    simp [c4Schema, Validate_some, validateAttributes, validateBlocksGo_nil, contains,
      List.filterMap]

/-- C4 witness: the no-excluded-name invariant instantiated at a concrete
validation run producing one finding for `env`. -/
theorem spec_C4_witness :
    contains ([] ++ (BlockData.mk [] [] [] []).ignoreChanges)
      (ValidationFinding.mk "t" "root" "env" true false).Name = false :=
  spec_C4.2.1 (some (SchemaBlock.mk [("env", SchemaAttribute.mk true false false)] []))
    (BlockData.mk [] [] [] []) "t" "root" []
    (ValidationFinding.mk "t" "root" "env" true false)
    (by simp [Validate_some, validateAttributes, validateBlocksGo_nil, contains,
      List.filterMap])

/-- Filtering block findings at the parent path for a name with no schema
block-type entry yields nothing. -/
theorem filter_validateBlocksGo_other {bd : BlockData} {rt p : String}
    {bts : List (String × SchemaBlockType)} {ign : List String} {name : String}
    (h : name ∉ bts.map Prod.fst) :
    (validateBlocksGo bd rt p bts ign).filter
      (fun f => f.Name == name && f.Path == p && f.IsBlock) = [] := by
  rw [List.filter_eq_nil_iff]
  intro f hf
  obtain ⟨name0, nst, mi, ma, blk, hmem, hnt, hig, hcase⟩ := mem_validateBlocksGo hf
  rcases hcase with ⟨_, _, rfl⟩ | ⟨target, hlk, hrec⟩
  · have hne : name0 ≠ name := fun he => h (he ▸ List.mem_map_of_mem Prod.fst hmem)
    simp [ValidationFinding.Name, hne]
  · have hne := validate_path_ne hrec
    simp [hne]

/-- The block pass emits exactly one finding, with `isBlock=true` and
`required` = (minItems > 0), for a guarded-in schema block type with neither
a static nor a dynamic child. -/
theorem filter_validateBlocksGo_missing {bd : BlockData} {rt p : String}
    {bts : List (String × SchemaBlockType)} {ign : List String}
    {name nst : String} {mi ma : Int} {blk : Option SchemaBlock}
    (hnd : (bts.map Prod.fst).Nodup)
    (hmem : (name, SchemaBlockType.mk nst mi ma blk) ∈ bts)
    (hnt : name ≠ "timeouts") (hig : contains ign name = false)
    (hs : lookupA bd.staticBlocks name = none)
    (hd : lookupA bd.dynamicBlocks name = none) :
    (validateBlocksGo bd rt p bts ign).filter
        (fun f => f.Name == name && f.Path == p && f.IsBlock)
      = [ValidationFinding.mk rt p name (decide (mi > 0)) true] := by
  induction bts with
  | nil => simp at hmem
  | cons kv rest ih =>
    obtain ⟨k0, bt0⟩ := kv
    obtain ⟨nst0, mi0, ma0, blk0⟩ := bt0
    simp only [List.map_cons, List.nodup_cons] at hnd
    rw [validateBlocksGo_cons, List.filter_append]
    rcases List.mem_cons.mp hmem with hh | ht
    · cases hh
      rw [if_neg (by simp [hnt, hig]), hs, hd]
      rw [filter_validateBlocksGo_other hnd.1]
      simp
    · have hk0 : k0 ≠ name := fun he => (he ▸ hnd.1) (List.mem_map_of_mem Prod.fst ht)
      have hrec := ih hnd.2 ht
      rw [hrec]
      by_cases hg : (decide (k0 = "timeouts") || contains ign k0) = true
      · rw [if_pos hg]
        simp
      · rw [if_neg hg]
        cases hs0 : lookupA bd.staticBlocks k0 with
        | some st =>
          rw [filter_validate_child_nil name]
          simp
        | none =>
          cases hd0 : lookupA bd.dynamicBlocks k0 with
          | some dy =>
            rw [filter_validate_child_nil name]
            simp
          | none =>
            simp [hk0]

/-- C5: a schema block type, other than the reserved `timeouts` and not
excluded, with neither a static nor a dynamic child produces exactly one
finding with `isBlock=true` and `required` = (minItems > 0); and no finding
with `isBlock=true` is ever named `timeouts`, at any nesting level. -/
theorem spec_C5 :
    (∀ (bd : BlockData) (rt p name nst : String) (mi ma : Int) (blk : Option SchemaBlock)
        (bts : List (String × SchemaBlockType)) (ign : List String),
        (bts.map Prod.fst).Nodup → (name, SchemaBlockType.mk nst mi ma blk) ∈ bts →
        name ≠ "timeouts" → contains ign name = false →
        lookupA bd.staticBlocks name = none → lookupA bd.dynamicBlocks name = none →
        (validateBlocksGo bd rt p bts ign).filter
            (fun f => f.Name == name && f.Path == p && f.IsBlock)
          = [ValidationFinding.mk rt p name (decide (mi > 0)) true])
    ∧ (∀ (schema : Option SchemaBlock) (bd : BlockData) (rt p : String) (ign : List String)
        (f : ValidationFinding), f ∈ Validate bd rt p schema ign →
        f.IsBlock = true → f.Name ≠ "timeouts") := by
  constructor
  · intro bd rt p name nst mi ma blk bts ign hnd hmem hnt hig hs hd
    exact filter_validateBlocksGo_missing hnd hmem hnt hig hs hd
  · intro schema bd rt p ign f hf
    exact (validate_invariants hf).2.2

/-- C5 witness: the missing-block statement instantiated at a concrete
one-entry schema block-type map against the empty block. -/
theorem spec_C5_witness :
    (validateBlocksGo NewBlockData "t" "root"
        [("subnet", SchemaBlockType.mk "list" 1 1 none)] []).filter
        (fun f => f.Name == "subnet" && f.Path == "root" && f.IsBlock)
      = [ValidationFinding.mk "t" "root" "subnet" (decide ((1 : Int) > 0)) true] :=
  spec_C5.1 NewBlockData "t" "root" "subnet" "list" 1 1 none
    [("subnet", SchemaBlockType.mk "list" 1 1 none)] []
    (by decide) (by simp) (by decide) rfl rfl rfl

/-- C8: with a matching child present, the validator recurses into exactly
one child — the static one when it exists (regardless of a dynamic sibling),
else the dynamic one — with path extended by `.name`, the effective
exclusion list just computed, and the schema's nested block. -/
theorem spec_C8 :
    ∀ (bd : BlockData) (rt p : String) (attrs : List (String × SchemaAttribute))
      (name nst : String) (mi ma : Int) (blk : Option SchemaBlock)
      (parentIgnore : List String),
      name ≠ "timeouts" →
      contains (parentIgnore ++ bd.ignoreChanges) name = false →
      ((∀ st, lookupA bd.staticBlocks name = some st →
          Validate bd rt p
              (some (SchemaBlock.mk attrs [(name, SchemaBlockType.mk nst mi ma blk)]))
              parentIgnore
            = validateAttributes bd rt p
                (SchemaBlock.mk attrs [(name, SchemaBlockType.mk nst mi ma blk)])
                (parentIgnore ++ bd.ignoreChanges) ++
              Validate st rt (p ++ "." ++ name) blk (parentIgnore ++ bd.ignoreChanges))
        ∧ (∀ dy, lookupA bd.staticBlocks name = none →
            lookupA bd.dynamicBlocks name = some dy →
            Validate bd rt p
                (some (SchemaBlock.mk attrs [(name, SchemaBlockType.mk nst mi ma blk)]))
                parentIgnore
              = validateAttributes bd rt p
                  (SchemaBlock.mk attrs [(name, SchemaBlockType.mk nst mi ma blk)])
                  (parentIgnore ++ bd.ignoreChanges) ++
                Validate dy rt (p ++ "." ++ name) blk (parentIgnore ++ bd.ignoreChanges))) := by
  intro bd rt p attrs name nst mi ma blk parentIgnore hnt hig
  constructor
  · intro st hs
    rw [Validate_some, validateBlocksGo_cons, if_neg (by simp [hnt, hig]), hs]
    simp [validateBlocksGo_nil]
  · intro dy hs hd
    rw [Validate_some, validateBlocksGo_cons, if_neg (by simp [hnt, hig]), hs, hd]
    simp [validateBlocksGo_nil]

/-- C8 witness: the static-precedence recursion equation instantiated at a
concrete block holding a static `net` child. -/
theorem spec_C8_witness :
    Validate (BlockData.mk [] [("net", BlockData.mk [] [] [] [])] [] []) "t" "root"
        (some (SchemaBlock.mk [] [("net", SchemaBlockType.mk "list" 0 0 none)])) []
      = validateAttributes (BlockData.mk [] [("net", BlockData.mk [] [] [] [])] [] []) "t"
          "root" (SchemaBlock.mk [] [("net", SchemaBlockType.mk "list" 0 0 none)])
          ([] ++ (BlockData.mk [] [("net", BlockData.mk [] [] [] [])] [] []).ignoreChanges) ++
        Validate (BlockData.mk [] [] [] []) "t" ("root" ++ "." ++ "net") none
          ([] ++ (BlockData.mk [] [("net", BlockData.mk [] [] [] [])] [] []).ignoreChanges) :=
  (spec_C8 (BlockData.mk [] [("net", BlockData.mk [] [] [] [])] [] []) "t" "root" []
    "net" "list" 0 0 none [] (by decide) rfl).1 (BlockData.mk [] [] [] []) (by simp [lookupA])

/-- C10: a nested block whose type is the reserved dynamic marker but which
does not carry exactly one label is dropped entirely: the built tree equals
the tree built from the body without that block. -/
theorem spec_C10 : ∀ (attrs : List (String × CtyValue)) (bs1 bs2 : List HclBlock)
    (ls : List String) (b : HclBody), ls.length ≠ 1 →
    ParseSyntaxBody (HclBody.mk attrs (bs1 ++ HclBlock.mk "dynamic" ls b :: bs2))
      = ParseSyntaxBody (HclBody.mk attrs (bs1 ++ bs2)) := by
  intro attrs bs1 bs2 ls b h
  rw [ParseSyntaxBody_def, ParseSyntaxBody_def]
  have hpa : ParseAttributes NewBlockData
        (HclBody.mk attrs (bs1 ++ HclBlock.mk "dynamic" ls b :: bs2))
      = ParseAttributes NewBlockData (HclBody.mk attrs (bs1 ++ bs2)) := by
    simp [ParseAttributes]
  rw [hpa]
  clear hpa
  generalize ParseAttributes NewBlockData (HclBody.mk attrs (bs1 ++ bs2)) = bd
  induction bs1 generalizing bd with
  | nil =>
    simp only [List.nil_append]
    rw [parseBlocksList_cons, parseOneBlock_dynamic_other bd ls b h]
  | cons hd tl ih =>
    simp only [List.cons_append]
    rw [parseBlocksList_cons, parseBlocksList_cons]
    apply ih

/-- C10 witness: a zero-label dynamic block contributes nothing. -/
theorem spec_C10_witness :
    ParseSyntaxBody (HclBody.mk [] ([] ++ HclBlock.mk "dynamic" [] c10Body :: []))
      = ParseSyntaxBody (HclBody.mk [] ([] ++ [])) :=
  spec_C10 [] [] [] [] c10Body (by decide)

/-- Membership scan of a cons cell as a boolean or. -/
theorem contains_cons (x q : String) (xs : List String) :
    contains (x :: xs) q = (decide (x = q) || contains xs q) := by
  by_cases h : x = q <;> simp [contains, h]

/-- Recording one property name only touches the `properties` field, where it
acts as set insertion. -/
theorem setProp_fields (bd : BlockData) (k : String) :
    (setProp bd k).staticBlocks = bd.staticBlocks ∧
      (setProp bd k).dynamicBlocks = bd.dynamicBlocks ∧
      (setProp bd k).ignoreChanges = bd.ignoreChanges ∧
      (∀ q, contains (setProp bd k).properties q
          = (contains bd.properties q || decide (k = q))) := by
  cases bd with
  | mk p s d i =>
    by_cases hc : contains p k = true
    · refine ⟨by simp [setProp, hc], by simp [setProp, hc], by simp [setProp, hc], ?_⟩
      intro q
      simp only [setProp, hc, if_true, BlockData.properties_mk]
      by_cases hkq : k = q
      · subst hkq
        simp [hc]
      · simp [hkq]
    · have hc2 : contains p k = false := Bool.not_eq_true _ |>.mp hc
      refine ⟨by simp [setProp, hc2], by simp [setProp, hc2], by simp [setProp, hc2], ?_⟩
      intro q
      simp only [setProp, hc2, Bool.false_eq_true, if_false, BlockData.properties_mk]
      rw [contains_append, contains_cons]
      simp [contains]

/-- The property-union loop of `mergeBlocks` only touches `properties`,
where it unions in the source names. -/
theorem foldProps_fields (l : List String) : ∀ (bd : BlockData),
    ((l.foldl (fun acc k => setProp acc k) bd).staticBlocks = bd.staticBlocks ∧
      (l.foldl (fun acc k => setProp acc k) bd).dynamicBlocks = bd.dynamicBlocks ∧
      (l.foldl (fun acc k => setProp acc k) bd).ignoreChanges = bd.ignoreChanges ∧
      ∀ q, contains (l.foldl (fun acc k => setProp acc k) bd).properties q
          = (contains bd.properties q || contains l q)) := by
  induction l with
  | nil =>
    intro bd
    exact ⟨rfl, rfl, rfl, fun q => by simp [contains]⟩
  | cons x xs ih =>
    intro bd
    rw [List.foldl_cons]
    obtain ⟨h1, h2, h3, h4⟩ := ih (setProp bd x)
    obtain ⟨g1, g2, g3, g4⟩ := setProp_fields bd x
    refine ⟨h1.trans g1, h2.trans g2, h3.trans g3, fun q => ?_⟩
    rw [h4 q, g4 q, contains_cons]
    rw [Bool.or_assoc]

/-- Writing one static-map binding only touches `staticBlocks`. -/
theorem setStaticEntry_fields (bd : BlockData) (k : String) (v : BlockData) :
    (setStaticEntry bd k v).properties = bd.properties ∧
      (setStaticEntry bd k v).dynamicBlocks = bd.dynamicBlocks ∧
      (setStaticEntry bd k v).ignoreChanges = bd.ignoreChanges ∧
      ∀ q, lookupA (setStaticEntry bd k v).staticBlocks q
          = if k = q then some v else lookupA bd.staticBlocks q := by
  cases bd with
  | mk p s d i =>
    exact ⟨rfl, rfl, rfl, fun q => lookupA_insertAssoc s k q v⟩

/-- Writing one dynamic-map binding only touches `dynamicBlocks`. -/
theorem setDynamicEntry_fields (bd : BlockData) (k : String) (v : BlockData) :
    (setDynamicEntry bd k v).properties = bd.properties ∧
      (setDynamicEntry bd k v).staticBlocks = bd.staticBlocks ∧
      (setDynamicEntry bd k v).ignoreChanges = bd.ignoreChanges ∧
      ∀ q, lookupA (setDynamicEntry bd k v).dynamicBlocks q
          = if k = q then some v else lookupA bd.dynamicBlocks q := by
  cases bd with
  | mk p s d i =>
    exact ⟨rfl, rfl, rfl, fun q => lookupA_insertAssoc d k q v⟩

/-- Replacing the exclusion list only touches `ignoreChanges`. -/
theorem setIgnore_fields (bd : BlockData) (l : List String) :
    (setIgnore bd l).properties = bd.properties ∧
      (setIgnore bd l).staticBlocks = bd.staticBlocks ∧
      (setIgnore bd l).dynamicBlocks = bd.dynamicBlocks ∧
      (setIgnore bd l).ignoreChanges = l := by
  cases bd with
  | mk p s d i => exact ⟨rfl, rfl, rfl, rfl⟩

/-- The static merge loop only touches `staticBlocks`. -/
theorem mergeStaticInto_fields (src : List (String × BlockData)) : ∀ (dest : BlockData),
    (mergeStaticInto dest src).properties = dest.properties ∧
      (mergeStaticInto dest src).dynamicBlocks = dest.dynamicBlocks ∧
      (mergeStaticInto dest src).ignoreChanges = dest.ignoreChanges := by
  induction src with
  | nil =>
    intro dest
    rw [mergeStaticInto_nil]
    exact ⟨rfl, rfl, rfl⟩
  | cons kv rest ih =>
    intro dest
    obtain ⟨k, v⟩ := kv
    cases hl : lookupA dest.staticBlocks k with
    | some e =>
      rw [mergeStaticInto_cons_some dest k v e rest hl]
      obtain ⟨h1, h2, h3⟩ := ih (setStaticEntry dest k (mergeBlocks e v))
      obtain ⟨g1, g2, g3, _⟩ := setStaticEntry_fields dest k (mergeBlocks e v)
      exact ⟨h1.trans g1, h2.trans g2, h3.trans g3⟩
    | none =>
      rw [mergeStaticInto_cons_none dest k v rest hl]
      obtain ⟨h1, h2, h3⟩ := ih (setStaticEntry dest k v)
      obtain ⟨g1, g2, g3, _⟩ := setStaticEntry_fields dest k v
      exact ⟨h1.trans g1, h2.trans g2, h3.trans g3⟩

/-- The dynamic merge loop only touches `dynamicBlocks`. -/
theorem mergeDynamicInto_fields (src : List (String × BlockData)) : ∀ (dest : BlockData),
    (mergeDynamicInto dest src).properties = dest.properties ∧
      (mergeDynamicInto dest src).staticBlocks = dest.staticBlocks ∧
      (mergeDynamicInto dest src).ignoreChanges = dest.ignoreChanges := by
  induction src with
  | nil =>
    intro dest
    rw [mergeDynamicInto_nil]
    exact ⟨rfl, rfl, rfl⟩
  | cons kv rest ih =>
    intro dest
    obtain ⟨k, v⟩ := kv
    cases hl : lookupA dest.dynamicBlocks k with
    | some e =>
      rw [mergeDynamicInto_cons_some dest k v e rest hl]
      obtain ⟨h1, h2, h3⟩ := ih (setDynamicEntry dest k (mergeBlocks e v))
      obtain ⟨g1, g2, g3, _⟩ := setDynamicEntry_fields dest k (mergeBlocks e v)
      exact ⟨h1.trans g1, h2.trans g2, h3.trans g3⟩
    | none =>
      rw [mergeDynamicInto_cons_none dest k v rest hl]
      obtain ⟨h1, h2, h3⟩ := ih (setDynamicEntry dest k v)
      obtain ⟨g1, g2, g3, _⟩ := setDynamicEntry_fields dest k v
      exact ⟨h1.trans g1, h2.trans g2, h3.trans g3⟩

/-- Lookup after the static merge loop: colliding keys hold the recursive
merge, keys only in the destination keep their entry, keys only in the
source take the new entry. -/
theorem mergeStaticInto_lookup (src : List (String × BlockData)) : ∀ (dest : BlockData),
    (src.map Prod.fst).Nodup →
    ∀ k, lookupA (mergeStaticInto dest src).staticBlocks k
      = match lookupA dest.staticBlocks k, lookupA src k with
        | some e, some v => some (mergeBlocks e v)
        | some e, none => some e
        | none, r => r := by
  induction src with
  | nil =>
    intro dest _ k
    rw [mergeStaticInto_nil]
    cases lookupA dest.staticBlocks k <;> simp [lookupA]
  | cons kv rest ih =>
    intro dest hnd k
    obtain ⟨k0, v0⟩ := kv
    simp only [List.map_cons, List.nodup_cons] at hnd
    cases hl : lookupA dest.staticBlocks k0 with
    | some e =>
      rw [mergeStaticInto_cons_some dest k0 v0 e rest hl, ih _ hnd.2 k]
      obtain ⟨_, _, _, g4⟩ := setStaticEntry_fields dest k0 (mergeBlocks e v0)
      rw [g4 k]
      by_cases hk : k0 = k
      · subst hk
        rw [if_pos rfl, hl, (lookupA_eq_none_iff rest k0).mpr hnd.1]
        have hsrc : lookupA ((k0, v0) :: rest) k0 = some v0 := by simp [lookupA]
        rw [hsrc]
      · rw [if_neg hk]
        have hsrc : lookupA ((k0, v0) :: rest) k = lookupA rest k := by simp [lookupA, hk]
        rw [hsrc]
    | none =>
      rw [mergeStaticInto_cons_none dest k0 v0 rest hl, ih _ hnd.2 k]
      obtain ⟨_, _, _, g4⟩ := setStaticEntry_fields dest k0 v0
      rw [g4 k]
      by_cases hk : k0 = k
      · subst hk
        rw [if_pos rfl, hl, (lookupA_eq_none_iff rest k0).mpr hnd.1]
        have hsrc : lookupA ((k0, v0) :: rest) k0 = some v0 := by simp [lookupA]
        rw [hsrc]
      · rw [if_neg hk]
        have hsrc : lookupA ((k0, v0) :: rest) k = lookupA rest k := by simp [lookupA, hk]
        rw [hsrc]

/-- Lookup after the dynamic merge loop (mirror of the static case). -/
theorem mergeDynamicInto_lookup (src : List (String × BlockData)) : ∀ (dest : BlockData),
    (src.map Prod.fst).Nodup →
    ∀ k, lookupA (mergeDynamicInto dest src).dynamicBlocks k
      = match lookupA dest.dynamicBlocks k, lookupA src k with
        | some e, some v => some (mergeBlocks e v)
        | some e, none => some e
        | none, r => r := by
  induction src with
  | nil =>
    intro dest _ k
    rw [mergeDynamicInto_nil]
    cases lookupA dest.dynamicBlocks k <;> simp [lookupA]
  | cons kv rest ih =>
    intro dest hnd k
    obtain ⟨k0, v0⟩ := kv
    simp only [List.map_cons, List.nodup_cons] at hnd
    cases hl : lookupA dest.dynamicBlocks k0 with
    | some e =>
      rw [mergeDynamicInto_cons_some dest k0 v0 e rest hl, ih _ hnd.2 k]
      obtain ⟨_, _, _, g4⟩ := setDynamicEntry_fields dest k0 (mergeBlocks e v0)
      rw [g4 k]
      by_cases hk : k0 = k
      · subst hk
        rw [if_pos rfl, hl, (lookupA_eq_none_iff rest k0).mpr hnd.1]
        have hsrc : lookupA ((k0, v0) :: rest) k0 = some v0 := by simp [lookupA]
        rw [hsrc]
      · rw [if_neg hk]
        have hsrc : lookupA ((k0, v0) :: rest) k = lookupA rest k := by simp [lookupA, hk]
        rw [hsrc]
    | none =>
      rw [mergeDynamicInto_cons_none dest k0 v0 rest hl, ih _ hnd.2 k]
      obtain ⟨_, _, _, g4⟩ := setDynamicEntry_fields dest k0 v0
      rw [g4 k]
      by_cases hk : k0 = k
      · subst hk
        rw [if_pos rfl, hl, (lookupA_eq_none_iff rest k0).mpr hnd.1]
        have hsrc : lookupA ((k0, v0) :: rest) k0 = some v0 := by simp [lookupA]
        rw [hsrc]
      · rw [if_neg hk]
        have hsrc : lookupA ((k0, v0) :: rest) k = lookupA rest k := by simp [lookupA, hk]
        rw [hsrc]

/-- Property membership after a full merge is the boolean union. -/
theorem mergeBlocks_properties (d s : BlockData) (q : String) :
    contains (mergeBlocks d s).properties q
      = (contains d.properties q || contains s.properties q) := by
  cases s with
  | mk sp ss sd si =>
    rw [mergeBlocks_def]
    obtain ⟨i1, _, _, _⟩ := setIgnore_fields
      (mergeDynamicInto (mergeStaticInto (sp.foldl (fun acc k => setProp acc k) d) ss) sd)
      ((mergeDynamicInto (mergeStaticInto (sp.foldl (fun acc k => setProp acc k) d) ss)
        sd).ignoreChanges ++ si)
    rw [i1]
    obtain ⟨d1, _, _⟩ := mergeDynamicInto_fields sd
      (mergeStaticInto (sp.foldl (fun acc k => setProp acc k) d) ss)
    rw [d1]
    obtain ⟨s1, _, _⟩ := mergeStaticInto_fields ss (sp.foldl (fun acc k => setProp acc k) d)
    rw [s1]
    obtain ⟨_, _, _, f4⟩ := foldProps_fields sp d
    rw [f4 q]
    rfl

/-- Static-map lookup after a full merge. -/
theorem mergeBlocks_staticLookup (d s : BlockData)
    (hnd : (s.staticBlocks.map Prod.fst).Nodup) (k : String) :
    lookupA (mergeBlocks d s).staticBlocks k
      = match lookupA d.staticBlocks k, lookupA s.staticBlocks k with
        | some e, some v => some (mergeBlocks e v)
        | some e, none => some e
        | none, r => r := by
  cases s with
  | mk sp ss sd si =>
    rw [mergeBlocks_def]
    obtain ⟨_, i2, _, _⟩ := setIgnore_fields
      (mergeDynamicInto (mergeStaticInto (sp.foldl (fun acc k => setProp acc k) d) ss) sd)
      ((mergeDynamicInto (mergeStaticInto (sp.foldl (fun acc k => setProp acc k) d) ss)
        sd).ignoreChanges ++ si)
    rw [i2]
    obtain ⟨_, d2, _⟩ := mergeDynamicInto_fields sd
      (mergeStaticInto (sp.foldl (fun acc k => setProp acc k) d) ss)
    rw [d2]
    rw [mergeStaticInto_lookup ss (sp.foldl (fun acc k => setProp acc k) d) (by simpa using hnd) k]
    obtain ⟨f1, _, _, _⟩ := foldProps_fields sp d
    rw [f1]
    rfl

/-- Dynamic-map lookup after a full merge. -/
theorem mergeBlocks_dynamicLookup (d s : BlockData)
    (hnd : (s.dynamicBlocks.map Prod.fst).Nodup) (k : String) :
    lookupA (mergeBlocks d s).dynamicBlocks k
      = match lookupA d.dynamicBlocks k, lookupA s.dynamicBlocks k with
        | some e, some v => some (mergeBlocks e v)
        | some e, none => some e
        | none, r => r := by
  cases s with
  | mk sp ss sd si =>
    rw [mergeBlocks_def]
    obtain ⟨_, _, i3, _⟩ := setIgnore_fields
      (mergeDynamicInto (mergeStaticInto (sp.foldl (fun acc k => setProp acc k) d) ss) sd)
      ((mergeDynamicInto (mergeStaticInto (sp.foldl (fun acc k => setProp acc k) d) ss)
        sd).ignoreChanges ++ si)
    rw [i3]
    rw [mergeDynamicInto_lookup sd
      (mergeStaticInto (sp.foldl (fun acc k => setProp acc k) d) ss) (by simpa using hnd) k]
    obtain ⟨_, s2, _⟩ := mergeStaticInto_fields ss (sp.foldl (fun acc k => setProp acc k) d)
    rw [s2]
    obtain ⟨_, f2, _, _⟩ := foldProps_fields sp d
    rw [f2]
    rfl

/-- Exclusion lists concatenate under a full merge. -/
theorem mergeBlocks_ignoreChanges (d s : BlockData) :
    (mergeBlocks d s).ignoreChanges = d.ignoreChanges ++ s.ignoreChanges := by
  cases s with
  | mk sp ss sd si =>
    rw [mergeBlocks_def]
    obtain ⟨_, _, _, i4⟩ := setIgnore_fields
      (mergeDynamicInto (mergeStaticInto (sp.foldl (fun acc k => setProp acc k) d) ss) sd)
      ((mergeDynamicInto (mergeStaticInto (sp.foldl (fun acc k => setProp acc k) d) ss)
        sd).ignoreChanges ++ si)
    rw [i4]
    obtain ⟨_, _, d3⟩ := mergeDynamicInto_fields sd
      (mergeStaticInto (sp.foldl (fun acc k => setProp acc k) d) ss)
    rw [d3]
    obtain ⟨_, _, s3⟩ := mergeStaticInto_fields ss (sp.foldl (fun acc k => setProp acc k) d)
    rw [s3]
    obtain ⟨_, _, f3, _⟩ := foldProps_fields sp d
    rw [f3]
    rfl

/-- C7: merging dynamic-block declarations targeting the same label unions
the property sets (associatively and commutatively), recursively merges the
two block maps on key collision while taking the new entry otherwise,
concatenates the exclusion lists, and the two-declaration `rule` scenario
produces a merged child whose properties are exactly x and y. -/
theorem spec_C7 :
    (∀ (d s : BlockData) (q : String),
        contains (mergeBlocks d s).properties q
          = (contains d.properties q || contains s.properties q))
    ∧ (∀ (d s1 s2 : BlockData) (q : String),
        contains (mergeBlocks (mergeBlocks d s1) s2).properties q
            = contains (mergeBlocks d (mergeBlocks s1 s2)).properties q
          ∧ contains (mergeBlocks s1 s2).properties q
            = contains (mergeBlocks s2 s1).properties q)
    ∧ (∀ (d s : BlockData), (s.staticBlocks.map Prod.fst).Nodup →
        ∀ k, lookupA (mergeBlocks d s).staticBlocks k
          = match lookupA d.staticBlocks k, lookupA s.staticBlocks k with
            | some e, some v => some (mergeBlocks e v)
            | some e, none => some e
            | none, r => r)
    ∧ (∀ (d s : BlockData), (s.dynamicBlocks.map Prod.fst).Nodup →
        ∀ k, lookupA (mergeBlocks d s).dynamicBlocks k
          = match lookupA d.dynamicBlocks k, lookupA s.dynamicBlocks k with
            | some e, some v => some (mergeBlocks e v)
            | some e, none => some e
            | none, r => r)
    ∧ (∀ (d s : BlockData),
        (mergeBlocks d s).ignoreChanges = d.ignoreChanges ++ s.ignoreChanges)
    ∧ lookupA (ParseSyntaxBody c7Body).dynamicBlocks "rule"
        = some (BlockData.mk ["x", "y"] [] [] []) := by
  refine ⟨mergeBlocks_properties, ?_, ?_, ?_, mergeBlocks_ignoreChanges, ?_⟩
  · intro d s1 s2 q
    constructor
    · rw [mergeBlocks_properties, mergeBlocks_properties, mergeBlocks_properties,
        mergeBlocks_properties, Bool.or_assoc]
    · rw [mergeBlocks_properties, mergeBlocks_properties, Bool.or_comm]
  · intro d s hnd k
    exact mergeBlocks_staticLookup d s hnd k
  · intro d s hnd k
    exact mergeBlocks_dynamicLookup d s hnd k
  · have h1 : ParseSyntaxBody (HclBody.mk [("x", CtyValue.boolV true)] [])
        = BlockData.mk ["x"] [] [] [] := by
      simp [ParseSyntaxBody_def, parseBlocksList_nil, ParseAttributes, NewBlockData, setProp,
        contains]
    have h2 : ParseSyntaxBody (HclBody.mk [("y", CtyValue.num 2)] [])
        = BlockData.mk ["y"] [] [] [] := by
      simp [ParseSyntaxBody_def, parseBlocksList_nil, ParseAttributes, NewBlockData, setProp,
        contains]
    have hmerge : mergeBlocks (BlockData.mk ["x"] [] [] []) (BlockData.mk ["y"] [] [] [])
        = BlockData.mk ["x", "y"] [] [] [] := by
      rw [mergeBlocks_def]
      simp [mergeStaticInto_nil, mergeDynamicInto_nil, setIgnore, setProp, contains]
    simp [c7Body, ParseSyntaxBody_def, parseBlocksList_cons, parseBlocksList_nil,
      parseOneBlock_dynamic_one, parseDynamicBlock, findContentBlock, findContentIn,
      ParseAttributes, NewBlockData, setDynamicEntry, insertAssoc, lookupA, h1, h2, hmerge]

/-- C7 witness: the collision-merge lookup equation instantiated at two
concrete one-entry static maps sharing the key `a`. -/
theorem spec_C7_witness :
    lookupA (mergeBlocks (BlockData.mk [] [("a", BlockData.mk [] [] [] [])] [] [])
        (BlockData.mk [] [("a", BlockData.mk ["z"] [] [] [])] [] [])).staticBlocks "a"
      = match lookupA (BlockData.mk [] [("a", BlockData.mk [] [] [] [])] [] []).staticBlocks "a",
          lookupA (BlockData.mk [] [("a", BlockData.mk ["z"] [] [] [])] [] []).staticBlocks "a" with
        | some e, some v => some (mergeBlocks e v)
        | some e, none => some e
        | none, r => r :=
  spec_C7.2.2.1 (BlockData.mk [] [("a", BlockData.mk [] [] [] [])] [] [])
    (BlockData.mk [] [("a", BlockData.mk ["z"] [] [] [])] [] []) (by simp) "a"

/-- The static map read out of a static-map write. -/
theorem setStaticEntry_static (bd : BlockData) (k : String) (v : BlockData) :
    (setStaticEntry bd k v).staticBlocks = insertAssoc bd.staticBlocks k v := by
  cases bd
  rfl

/-- `parseLifecycle` leaves every field but `ignoreChanges` untouched. -/
theorem parseLifecycle_fields (body : HclBody) : ∀ (bd : BlockData),
    (parseLifecycle bd body).properties = bd.properties ∧
      (parseLifecycle bd body).staticBlocks = bd.staticBlocks ∧
      (parseLifecycle bd body).dynamicBlocks = bd.dynamicBlocks := by
  cases body with
  | mk battrs bblocks =>
    simp only [parseLifecycle, HclBody.attributesOf_mk]
    induction battrs with
    | nil =>
      intro bd
      exact ⟨rfl, rfl, rfl⟩
    | cons kv rest ih =>
      intro bd
      rw [List.foldl_cons]
      by_cases hk : kv.1 = "ignore_changes"
      · rw [if_pos hk]
        obtain ⟨h1, h2, h3⟩ := ih (setIgnore bd (extractIgnoreChanges kv.2))
        obtain ⟨g1, g2, g3, _⟩ := setIgnore_fields bd (extractIgnoreChanges kv.2)
        exact ⟨h1.trans g1, h2.trans g2, h3.trans g3⟩
      · rw [if_neg hk]
        exact ih bd

/-- The exclusion list produced by `parseLifecycle` depends only on the body
and the incoming exclusion list. -/
theorem parseLifecycle_ignore (body : HclBody) : ∀ (bd1 bd2 : BlockData),
    bd1.ignoreChanges = bd2.ignoreChanges →
    (parseLifecycle bd1 body).ignoreChanges = (parseLifecycle bd2 body).ignoreChanges := by
  cases body with
  | mk battrs bblocks =>
    simp only [parseLifecycle, HclBody.attributesOf_mk]
    induction battrs with
    | nil =>
      intro bd1 bd2 h
      exact h
    | cons kv rest ih =>
      intro bd1 bd2 h
      rw [List.foldl_cons, List.foldl_cons]
      by_cases hk : kv.1 = "ignore_changes"
      · rw [if_pos hk, if_pos hk]
        apply ih
        obtain ⟨_, _, _, g4a⟩ := setIgnore_fields bd1 (extractIgnoreChanges kv.2)
        obtain ⟨_, _, _, g4b⟩ := setIgnore_fields bd2 (extractIgnoreChanges kv.2)
        rw [g4a, g4b]
      · rw [if_neg hk, if_neg hk]
        exact ih bd1 bd2 h

/-- `parseDynamicBlock` leaves every field but `dynamicBlocks` untouched. -/
theorem parseDynamicBlock_fields (bd : BlockData) (body : HclBody) (l : String) :
    (parseDynamicBlock bd body l).properties = bd.properties ∧
      (parseDynamicBlock bd body l).staticBlocks = bd.staticBlocks ∧
      (parseDynamicBlock bd body l).ignoreChanges = bd.ignoreChanges := by
  simp only [parseDynamicBlock]
  cases h : lookupA bd.dynamicBlocks l with
  | some e =>
    obtain ⟨g1, g2, g3, _⟩ := setDynamicEntry_fields bd l
      (mergeBlocks e (ParseSyntaxBody (findContentBlock body)))
    exact ⟨g1, g2, g3⟩
  | none =>
    obtain ⟨g1, g2, g3, _⟩ := setDynamicEntry_fields bd l
      (ParseSyntaxBody (findContentBlock body))
    exact ⟨g1, g2, g3⟩

/-- The dynamic map produced by `parseDynamicBlock` depends only on the body,
the label and the incoming dynamic map. -/
theorem parseDynamicBlock_dyn (body : HclBody) (l : String) (bd1 bd2 : BlockData)
    (h : bd1.dynamicBlocks = bd2.dynamicBlocks) :
    (parseDynamicBlock bd1 body l).dynamicBlocks
      = (parseDynamicBlock bd2 body l).dynamicBlocks := by
  have hdyn : ∀ (bd : BlockData) (v : BlockData),
      (setDynamicEntry bd l v).dynamicBlocks = insertAssoc bd.dynamicBlocks l v := by
    intro bd v
    cases bd
    rfl
  simp only [parseDynamicBlock]
  rw [h]
  cases hl : lookupA bd2.dynamicBlocks l with
  | some e =>
    rw [hdyn, hdyn, h]
  | none =>
    rw [hdyn, hdyn, h]

/-- One parse step preserves the relation "equal except for the literal
entry of type t": properties, dynamic blocks and exclusion lists stay equal,
and static lookups away from t stay equal. -/
theorem parseOneBlock_preserves (t : String)
    (b : HclBlock) : ∀ (x y : BlockData),
    x.properties = y.properties → x.dynamicBlocks = y.dynamicBlocks →
    x.ignoreChanges = y.ignoreChanges →
    (∀ k, k ≠ t → lookupA x.staticBlocks k = lookupA y.staticBlocks k) →
    ((parseOneBlock x b).properties = (parseOneBlock y b).properties ∧
      (parseOneBlock x b).dynamicBlocks = (parseOneBlock y b).dynamicBlocks ∧
      (parseOneBlock x b).ignoreChanges = (parseOneBlock y b).ignoreChanges ∧
      ∀ k, k ≠ t → lookupA (parseOneBlock x b).staticBlocks k
          = lookupA (parseOneBlock y b).staticBlocks k) := by
  intro x y hp hd hi hs
  obtain ⟨btype, blabels, bbody⟩ := b
  by_cases h1 : btype = "lifecycle"
  · subst h1
    rw [parseOneBlock_lifecycle, parseOneBlock_lifecycle]
    obtain ⟨px, sx, dx⟩ := parseLifecycle_fields bbody x
    obtain ⟨py, sy, dy⟩ := parseLifecycle_fields bbody y
    refine ⟨px.trans (hp.trans py.symm), dx.trans (hd.trans dy.symm),
      parseLifecycle_ignore bbody x y hi, fun k hk => ?_⟩
    rw [sx, sy]
    exact hs k hk
  · by_cases h2 : btype = "dynamic"
    · subst h2
      cases blabels with
      | nil =>
        rw [parseOneBlock_dynamic_other _ _ _ (by simp),
          parseOneBlock_dynamic_other _ _ _ (by simp)]
        exact ⟨hp, hd, hi, hs⟩
      | cons l1 lrest =>
        cases lrest with
        | nil =>
          rw [parseOneBlock_dynamic_one, parseOneBlock_dynamic_one]
          obtain ⟨px, sx, ix⟩ := parseDynamicBlock_fields x bbody l1
          obtain ⟨py, sy, iy⟩ := parseDynamicBlock_fields y bbody l1
          refine ⟨px.trans (hp.trans py.symm), parseDynamicBlock_dyn bbody l1 x y hd,
            ix.trans (hi.trans iy.symm), fun k hk => ?_⟩
          rw [sx, sy]
          exact hs k hk
        | cons l2 lrest2 =>
          rw [parseOneBlock_dynamic_other _ _ _ (by simp),
            parseOneBlock_dynamic_other _ _ _ (by simp)]
          exact ⟨hp, hd, hi, hs⟩
    · rw [parseOneBlock_static x btype blabels bbody h1 h2,
        parseOneBlock_static y btype blabels bbody h1 h2]
      obtain ⟨px, dx, ix, lx⟩ := setStaticEntry_fields x btype (ParseSyntaxBody bbody)
      obtain ⟨py, dy, iy, ly⟩ := setStaticEntry_fields y btype (ParseSyntaxBody bbody)
      refine ⟨px.trans (hp.trans py.symm), dx.trans (hd.trans dy.symm),
        ix.trans (hi.trans iy.symm), fun k hk => ?_⟩
      rw [lx k, ly k]
      by_cases hbk : btype = k
      · rw [if_pos hbk, if_pos hbk]
      · rw [if_neg hbk, if_neg hbk]
        exact hs k hk

/-- The block loop preserves the same relation. -/
theorem parseBlocksList_preserves (t : String)
    (bs : List HclBlock) : ∀ (x y : BlockData),
    x.properties = y.properties → x.dynamicBlocks = y.dynamicBlocks →
    x.ignoreChanges = y.ignoreChanges →
    (∀ k, k ≠ t → lookupA x.staticBlocks k = lookupA y.staticBlocks k) →
    ((parseBlocksList x bs).properties = (parseBlocksList y bs).properties ∧
      (parseBlocksList x bs).dynamicBlocks = (parseBlocksList y bs).dynamicBlocks ∧
      (parseBlocksList x bs).ignoreChanges = (parseBlocksList y bs).ignoreChanges ∧
      ∀ k, k ≠ t → lookupA (parseBlocksList x bs).staticBlocks k
          = lookupA (parseBlocksList y bs).staticBlocks k) := by
  induction bs with
  | nil =>
    intro x y hp hd hi hs
    rw [parseBlocksList_nil, parseBlocksList_nil]
    exact ⟨hp, hd, hi, hs⟩
  | cons b rest ih =>
    intro x y hp hd hi hs
    rw [parseBlocksList_cons, parseBlocksList_cons]
    obtain ⟨hp2, hd2, hi2, hs2⟩ := parseOneBlock_preserves t b x y hp hd hi hs
    exact ih _ _ hp2 hd2 hi2 hs2

/-- The block loop splits over list concatenation. -/
theorem parseBlocksList_append (l1 l2 : List HclBlock) : ∀ (bd : BlockData),
    parseBlocksList bd (l1 ++ l2) = parseBlocksList (parseBlocksList bd l1) l2 := by
  induction l1 with
  | nil =>
    intro bd
    rw [parseBlocksList_nil]
    rfl
  | cons b rest ih =>
    intro bd
    simp only [List.cons_append]
    rw [parseBlocksList_cons, parseBlocksList_cons]
    exact ih _

/-- C9: when the same non-reserved type name occurs twice as a literal
nested block, the tree keeps only the `BlockData` of the last occurrence
under that name, and the earlier occurrence contributes nothing at all: the
built tree agrees with the one built without it on `properties`,
`dynamicBlocks`, `ignoreChanges` and every static-map lookup. -/
theorem spec_C9 : ∀ (attrs : List (String × CtyValue)) (bs1 bs2 : List HclBlock)
    (t : String) (ls1 ls2 : List String) (b1 b2 : HclBody),
    t ≠ "lifecycle" → t ≠ "dynamic" →
    (lookupA (ParseSyntaxBody (HclBody.mk attrs
          (bs1 ++ HclBlock.mk t ls1 b1 :: (bs2 ++ [HclBlock.mk t ls2 b2])))).staticBlocks t
        = some (ParseSyntaxBody b2))
    ∧ (∀ k, lookupA (ParseSyntaxBody (HclBody.mk attrs
            (bs1 ++ HclBlock.mk t ls1 b1 :: (bs2 ++ [HclBlock.mk t ls2 b2])))).staticBlocks k
          = lookupA (ParseSyntaxBody (HclBody.mk attrs
            (bs1 ++ (bs2 ++ [HclBlock.mk t ls2 b2])))).staticBlocks k)
    ∧ (ParseSyntaxBody (HclBody.mk attrs
          (bs1 ++ HclBlock.mk t ls1 b1 :: (bs2 ++ [HclBlock.mk t ls2 b2])))).properties
        = (ParseSyntaxBody (HclBody.mk attrs
          (bs1 ++ (bs2 ++ [HclBlock.mk t ls2 b2])))).properties
    ∧ (ParseSyntaxBody (HclBody.mk attrs
          (bs1 ++ HclBlock.mk t ls1 b1 :: (bs2 ++ [HclBlock.mk t ls2 b2])))).dynamicBlocks
        = (ParseSyntaxBody (HclBody.mk attrs
          (bs1 ++ (bs2 ++ [HclBlock.mk t ls2 b2])))).dynamicBlocks
    ∧ (ParseSyntaxBody (HclBody.mk attrs
          (bs1 ++ HclBlock.mk t ls1 b1 :: (bs2 ++ [HclBlock.mk t ls2 b2])))).ignoreChanges
        = (ParseSyntaxBody (HclBody.mk attrs
          (bs1 ++ (bs2 ++ [HclBlock.mk t ls2 b2])))).ignoreChanges := by
  intro attrs bs1 bs2 t ls1 ls2 b1 b2 ht1 ht2
  have hpa : ∀ (l : List HclBlock), ParseAttributes NewBlockData (HclBody.mk attrs l)
      = ParseAttributes NewBlockData (HclBody.mk attrs []) := by
    intro l
    simp [ParseAttributes]
  have hfull : ParseSyntaxBody (HclBody.mk attrs
        (bs1 ++ HclBlock.mk t ls1 b1 :: (bs2 ++ [HclBlock.mk t ls2 b2])))
      = parseOneBlock
          (parseBlocksList
            (setStaticEntry
              (parseBlocksList (ParseAttributes NewBlockData (HclBody.mk attrs [])) bs1) t
              (ParseSyntaxBody b1))
            bs2)
          (HclBlock.mk t ls2 b2) := by
    rw [ParseSyntaxBody_def, hpa, parseBlocksList_append, parseBlocksList_cons,
      parseOneBlock_static _ t ls1 b1 ht1 ht2, parseBlocksList_append,
      parseBlocksList_cons, parseBlocksList_nil]
  have hdrop : ParseSyntaxBody (HclBody.mk attrs (bs1 ++ (bs2 ++ [HclBlock.mk t ls2 b2])))
      = parseOneBlock
          (parseBlocksList
            (parseBlocksList (ParseAttributes NewBlockData (HclBody.mk attrs [])) bs1) bs2)
          (HclBlock.mk t ls2 b2) := by
    rw [ParseSyntaxBody_def, hpa, parseBlocksList_append, parseBlocksList_append,
      parseBlocksList_cons, parseBlocksList_nil]
  obtain ⟨e1, e2, e3, e4⟩ := setStaticEntry_fields
    (parseBlocksList (ParseAttributes NewBlockData (HclBody.mk attrs [])) bs1) t
    (ParseSyntaxBody b1)
  obtain ⟨r1, r2, r3, r4⟩ := parseBlocksList_preserves t bs2
    (setStaticEntry (parseBlocksList (ParseAttributes NewBlockData (HclBody.mk attrs [])) bs1)
      t (ParseSyntaxBody b1))
    (parseBlocksList (ParseAttributes NewBlockData (HclBody.mk attrs [])) bs1)
    e1 e2 e3 (fun k hk => by rw [e4 k, if_neg (fun h => hk h.symm)])
  rw [hfull, hdrop, parseOneBlock_static _ t ls2 b2 ht1 ht2,
    parseOneBlock_static _ t ls2 b2 ht1 ht2]
  obtain ⟨fy1, fy2, fy3, fy4⟩ := setStaticEntry_fields
    (parseBlocksList
      (setStaticEntry (parseBlocksList (ParseAttributes NewBlockData (HclBody.mk attrs [])) bs1)
        t (ParseSyntaxBody b1)) bs2)
    t (ParseSyntaxBody b2)
  obtain ⟨fz1, fz2, fz3, fz4⟩ := setStaticEntry_fields
    (parseBlocksList (parseBlocksList (ParseAttributes NewBlockData (HclBody.mk attrs [])) bs1)
      bs2)
    t (ParseSyntaxBody b2)
  refine ⟨?_, ?_, ?_, ?_, ?_⟩
  · rw [fy4 t, if_pos rfl]
  · intro k
    rw [fy4 k, fz4 k]
    by_cases hk : t = k
    · rw [if_pos hk, if_pos hk]
    · rw [if_neg hk, if_neg hk]
      exact r4 k (fun he => hk he.symm)
  · rw [fy1, fz1, r1]
  · rw [fy2, fz2, r2]
  · rw [fy3, fz3, r3]

/-- C9 witness: two literal `subnet` blocks; the tree keeps the second. -/
theorem spec_C9_witness :
    lookupA (ParseSyntaxBody (HclBody.mk []
        ([] ++ HclBlock.mk "subnet" [] c9BodyA :: ([] ++ [HclBlock.mk "subnet" [] c9BodyB])))).staticBlocks
        "subnet"
      = some (ParseSyntaxBody c9BodyB) :=
  (spec_C9 [] [] [] "subnet" [] [] c9BodyA c9BodyB (by decide) (by decide)).1
